import Mathlib

/-!
Shallow embedding of the `rounders` decimal-rounding core
(`src/rounders/modes.py`, `src/rounders/intermediate_form.py`,
`src/rounders/fraction_overloads.py`, `src/rounders/round_to.py`,
`src/rounders/format.py`), together with proofs of the specified
properties of the rounding algorithms.

Conventions of the embedding:
* Python arbitrary-precision nonnegative integers become `Nat`; signed
  integers become `Int`.
* Python `divmod` on nonnegative operands is `Nat` division and remainder.
* Functions that can raise `ValueError` return `Except String α`, carrying
  the Python error message.
* `(d & -d).bit_length() - 1` in `_smallest_ten_power_multiple` computes the
  2-adic valuation of `d`; together with the `while d % 5 == 0` loop both
  valuations are expressed through one helper, `factorMultiplicity`.
* `len(str(n))` for a nonnegative integer `n` is the number of decimal
  digits of `n`, i.e. `(Nat.digits 10 n).length`.
-/

namespace Rounders

/-- The 13 rounding modes of `rounders/modes.py`: six to-nearest modes, six
directed modes, and the round-for-reround mode `TO_ZERO_05_AWAY`. -/
inductive RoundingMode where
  | TIES_TO_ZERO
  | TIES_TO_AWAY
  | TIES_TO_MINUS
  | TIES_TO_PLUS
  | TIES_TO_EVEN
  | TIES_TO_ODD
  | TO_ZERO
  | TO_AWAY
  | TO_MINUS
  | TO_PLUS
  | TO_EVEN
  | TO_ODD
  | TO_ZERO_05_AWAY
deriving DecidableEq

/-- Signature table of a standard rounding mode: `sig[sign][is_odd]` gives a
threshold, and `_StandardRoundingMode.round` rounds the value
`(-1)**sign * (significand + tenths/10)` away from zero iff
`tenths + threshold >= 10`. -/
def standardRound (signature : (Nat × Nat) × (Nat × Nat))
    (sign significand tenths : Nat) : Nat :=
  let isOdd := significand % 2
  let row := if sign = 0 then signature.1 else signature.2
  let threshold := if isOdd = 0 then row.1 else row.2
  significand + (if 10 ≤ tenths + threshold then 1 else 0)

/-- The signature table of each standard mode, as given at the bottom of
`rounders/modes.py`; `TO_ZERO_05_AWAY` is not signature-based. -/
def RoundingMode.signature : RoundingMode → Option ((Nat × Nat) × (Nat × Nat))
  | .TIES_TO_ZERO => some ((4, 4), (4, 4))
  | .TIES_TO_AWAY => some ((5, 5), (5, 5))
  | .TIES_TO_MINUS => some ((4, 4), (5, 5))
  | .TIES_TO_PLUS => some ((5, 5), (4, 4))
  | .TIES_TO_EVEN => some ((4, 5), (4, 5))
  | .TIES_TO_ODD => some ((5, 4), (5, 4))
  | .TO_ZERO => some ((0, 0), (0, 0))
  | .TO_AWAY => some ((9, 9), (9, 9))
  | .TO_MINUS => some ((0, 0), (9, 9))
  | .TO_PLUS => some ((9, 9), (0, 0))
  | .TO_EVEN => some ((0, 9), (0, 9))
  | .TO_ODD => some ((9, 0), (9, 0))
  | .TO_ZERO_05_AWAY => none

/-- Rounding decision of a mode: rounds `(-1)**sign * (significand + tenths/10)`
to an integer magnitude.  Standard modes use their signature table
(`_StandardRoundingMode.round`); `TO_ZERO_05_AWAY` rounds up iff the value is
inexact (`tenths > 0`) and the significand ends in 0 or 5
(`_RoundForReroundRoundingMode.round`). -/
def RoundingMode.round (mode : RoundingMode) (sign significand tenths : Nat) : Nat :=
  match mode.signature with
  | some sig => standardRound sig sign significand tenths
  | none => significand + (if 0 < tenths ∧ significand % 5 = 0 then 1 else 0)

/-- Intermediate value for rounding and formatting operations
(`rounders/intermediate_form.py`).  The value represented is
`(-1)**sign * significand * 10**exponent`. -/
structure IntermediateForm where
  sign : Nat
  significand : Nat
  exponent : Int
deriving DecidableEq

/-- Multiplicity of the factor `p` in `d`: how many times `p` divides `d`.
For `p = 2` this is what `(d & -d).bit_length() - 1` computes in
`_smallest_ten_power_multiple`; for `p = 5` it is the `while d % 5 == 0`
stripping loop of the same function. -/
def factorMultiplicity (p d : Nat) : Nat :=
  if h : 2 ≤ p ∧ 0 < d ∧ d % p = 0 then
    factorMultiplicity p (d / p) + 1
  else 0
termination_by d
decreasing_by exact Nat.div_lt_self h.2.1 h.1

/-- Find the smallest power of 10 that's divisible by a positive integer `d`
(`_smallest_ten_power_multiple`): count and remove powers of two, then check
that what remains is a power of 5.  Errors if there is no such power. -/
def smallestTenPowerMultiple (d : Nat) : Except String Nat :=
  let twoExp := factorMultiplicity 2 d
  let d1 := d / 2 ^ twoExp
  let fiveExp := factorMultiplicity 5 d1
  let d2 := d1 / 5 ^ fiveExp
  if d2 ≠ 1 then .error "d is not a divisor of any power of 10"
  else .ok (max twoExp fiveExp)

/-- The scaled numerator/denominator pair representing `n / d / 10**exponent`,
as formed in the exponent-given branch of
`IntermediateForm.from_signed_fraction` and in the exact rounding of a
fraction at a target exponent. -/
def scaledPair (n d : Nat) (exponent : Int) : Nat × Nat :=
  if exponent ≤ 0 then (n * 10 ^ (-exponent).toNat, d) else (n, d * 10 ^ exponent.toNat)

/-- Create an `IntermediateForm` from a signed fraction
(`IntermediateForm.from_signed_fraction`), given a target exponent, using
round-for-reround; with exponent `None` the fraction must be exactly
representable in decimal form.  Raises `ValueError` on a negative numerator
or nonpositive denominator. -/
def IntermediateForm.fromSignedFraction (sign : Nat) (numerator denominator : Int)
    (exponent : Option Int) : Except String IntermediateForm :=
  if numerator < 0 ∨ denominator ≤ 0 then .error "Invalid signed fraction representation"
  else
    let n := numerator.toNat
    let d := denominator.toNat
    match exponent with
    | none =>
      match smallestTenPowerMultiple d with
      | .error msg => .error msg
      | .ok e => .ok ⟨sign, n * (10 ^ e / d), -(e : Int)⟩
    | some exp =>
      let nd := scaledPair n d exp
      let significand := nd.1 / nd.2
      let inexact := nd.1 % nd.2
      .ok ⟨sign, significand + (if inexact ≠ 0 ∧ significand % 5 = 0 then 1 else 0), exp⟩

/-- Number of decimal digits in the significand (`IntermediateForm.figures`);
zero if the significand is zero. -/
def IntermediateForm.figures (self : IntermediateForm) : Nat :=
  if self.significand = 0 then 0 else (Nat.digits 10 self.significand).length

/-- Decade of the value (`IntermediateForm.decade`): an integer `e` with
`10**e <= abs(self) < 10**(e+1)`.  Raises `ValueError` for a zero value. -/
def IntermediateForm.decadeE (self : IntermediateForm) : Except String Int :=
  if self.significand = 0 then .error "zero value has no decade"
  else .ok (self.exponent + self.figures - 1)

/-- Zero test of an intermediate form (`IntermediateForm.is_zero`). -/
def IntermediateForm.isZero (self : IntermediateForm) : Bool :=
  self.significand = 0

/-- Drop a zero in cases where rounding led us to end up with an extra zero
(`IntermediateForm.nudge`).  Raises `ValueError` when more than one digit
would have to go, or when the dropped digit is nonzero. -/
def IntermediateForm.nudge (self : IntermediateForm) (figures : Int) :
    Except String IntermediateForm :=
  if (self.figures : Int) ≤ figures then .ok self
  else if (self.figures : Int) ≠ figures + 1 then .error "Can't drop more than one zero"
  else
    let newSignificand := self.significand / 10
    let tenths := self.significand % 10
    if tenths ≠ 0 then .error "Last digit is nonzero; dropping it would change the value"
    else .ok { self with significand := newSignificand, exponent := self.exponent + 1 }

/-- Round to the given exponent, using the given rounding mode
(`IntermediateForm.round`).  For a target at or below the current exponent
the significand is padded with zeros; otherwise the significand is split into
kept digits, a rounding digit and trailing digits, the trailing digits are
folded into the rounding digit when the rounding digit is 0 or 5, and the
mode decides whether the kept digits are incremented. -/
def IntermediateForm.round (self : IntermediateForm) (exponent : Int)
    (mode : RoundingMode) : IntermediateForm :=
  let diff := self.exponent - exponent
  if 0 ≤ diff then
    { self with significand := self.significand * 10 ^ diff.toNat, exponent := exponent }
  else
    let tenDiff := 10 ^ (-(diff + 1)).toNat
    let kept := self.significand / (10 * tenDiff)
    let remainder := self.significand % (10 * tenDiff)
    let rounding := remainder / tenDiff
    let trailing := remainder % tenDiff
    let roundingDigit := rounding + (if trailing ≠ 0 ∧ (rounding = 0 ∨ rounding = 5) then 1 else 0)
    { sign := self.sign, significand := mode.round self.sign kept roundingDigit,
      exponent := exponent }

/-- Replace a negative zero with an unsigned zero
(`IntermediateForm.force_unsigned_zero`). -/
def IntermediateForm.forceUnsignedZero (self : IntermediateForm) : IntermediateForm :=
  if self.significand ≠ 0 then self
  else { sign := 0, significand := self.significand, exponent := self.exponent }

/-- Convert a value with exponent 0 to an integer (`IntermediateForm.__int__`). -/
def IntermediateForm.toInt (self : IntermediateForm) : Except String Int :=
  if self.exponent ≠ 0 then .error "can only convert a value with exponent 0 to an integer"
  else .ok (if self.sign ≠ 0 then -(self.significand : Int) else (self.significand : Int))

/-- The exact rational value `(-1)**sign * significand * 10**exponent`
represented by an intermediate form. -/
def IntermediateForm.value (self : IntermediateForm) : Rat :=
  (-1 : Rat) ^ self.sign * self.significand * (10 : Rat) ^ self.exponent

/-- Lexicographic comparison of two decimal digit strings, as Python's `<` on
the strings of digit characters: a proper initial segment is smaller, and
otherwise the first differing digit decides. -/
def digitListLt : List Nat → List Nat → Bool
  | _, [] => false
  | [], _ :: _ => true
  | a :: as, b :: bs => if a < b then true else if b < a then false else digitListLt as bs

/-- Decimal digit string of a nonnegative integer, most significant digit
first: the digit-list reading of Python's `str(n)`.  (For `n = 0` the source
never consults this, and the empty list is returned.) -/
def digitString (n : Nat) : List Nat :=
  (Nat.digits 10 n).reverse

/-- Result of Python's `s.rstrip("0")` on a big-endian digit string: remove
trailing zero digits. -/
def stripTrailingZeros (l : List Nat) : List Nat :=
  (l.reverse.dropWhile (fun c => c = 0)).reverse

/-- Decade of the nonzero fraction `num / den` (the `decade` overload for
`fractions.Fraction` in `rounders/fraction_overloads.py`), computed from the
digit strings of the numerator and denominator:
`len(sn) - len(sd) - (sn.rstrip("0") < sd.rstrip("0"))`.
Raises `ValueError` on zero input. -/
def decadeFraction (num : Int) (den : Nat) : Except String Int :=
  if num = 0 then .error "decade input must be nonzero"
  else
    let sn := digitString num.natAbs
    let sd := digitString den
    .ok ((sn.length : Int) - (sd.length : Int) -
      (if digitListLt (stripTrailingZeros sn) (stripTrailingZeros sd) then 1 else 0))

/-- The `preround` overload for `fractions.Fraction`: build an intermediate
form from the signed fraction, pre-rounding at one digit finer than the
requested exponent (`exponent - 1`). -/
def preroundFraction (num : Int) (den : Nat) (exponent : Option Int) :
    Except String IntermediateForm :=
  IntermediateForm.fromSignedFraction (if num < 0 then 1 else 0)
    (num.natAbs : Int) (den : Int)
    (match exponent with | some e => some (e - 1) | none => none)

/-- The `to_type_of` overload for `fractions.Fraction`: convert a rounded
intermediate form back to an exact rational number. -/
def toTypeOfFraction (rounded : IntermediateForm) : Rat :=
  let q : Rat :=
    if 0 ≤ rounded.exponent then
      ((rounded.significand * 10 ^ rounded.exponent.toNat : Nat) : Rat)
    else (rounded.significand : Rat) / ((10 ^ (-rounded.exponent).toNat : Nat) : Rat)
  if rounded.sign ≠ 0 then -q else q

/-- A value handled by the generic rounding drivers of `rounders/round_to.py`:
either a finite exact number (modelled by its reduced fraction, the
`fractions.Fraction` overloads) or a non-finite value (an infinity or a NaN,
as produced by float and Decimal inputs). -/
inductive GenericValue where
  | finite (q : Rat)
  | infinite (sign : Nat)
  | nan
deriving DecidableEq

/-- The `is_finite` generic function. -/
def GenericValue.isFinite : GenericValue → Bool
  | .finite _ => true
  | _ => false

/-- The `is_zero` generic function. -/
def GenericValue.isZero : GenericValue → Bool
  | .finite q => q = 0
  | _ => false

/-- The `decade` generic function; only finite nonzero values have one. -/
def GenericValue.decadeE : GenericValue → Except String Int
  | .finite q => decadeFraction q.num q.den
  | _ => .error "decade input must be finite"

/-- The `preround` generic function, dispatched to the fraction overload. -/
def GenericValue.preround : GenericValue → Option Int → Except String IntermediateForm
  | .finite q, exponent => preroundFraction q.num q.den exponent
  | _, _ => .error "preround input must be finite"

/-- The `to_type_of` generic function, dispatched to the fraction overload. -/
def GenericValue.toTypeOf : GenericValue → IntermediateForm → Except String GenericValue
  | .finite _, rounded => .ok (.finite (toTypeOfFraction rounded))
  | _, _ => .error "to_type_of input must be finite"

/-- Round a value to the nearest integer using the given rounding mode
(`round_to_int`): raises `ValueError` when the value is not finite, otherwise
pre-rounds to exponent 0, rounds to exponent 0 and converts to an integer. -/
def roundToInt (x : GenericValue) (mode : RoundingMode) : Except String Int :=
  if ¬ x.isFinite then .error "x must be finite"
  else do
    let prerounded ← x.preround (some 0)
    (prerounded.round 0 mode).toInt

/-- Round a value to a given number of places after the point
(`round_to_places`).  Infinities and NaNs are returned unchanged. -/
def roundToPlaces (value : GenericValue) (places : Int) (mode : RoundingMode) :
    Except String GenericValue :=
  if ¬ value.isFinite then .ok value
  else do
    let prerounded ← value.preround (some (-places))
    let rounded := prerounded.round (-places) mode
    value.toTypeOf rounded

/-- The intermediate-form part of `round_to_figures`: pre-round at the
exponent determined by the decade of the value, recompute the target exponent
from the pre-rounded value, round, and nudge away a decade overflow. -/
def roundToFiguresIntermediate (x : GenericValue) (figures : Int)
    (mode : RoundingMode) : Except String IntermediateForm := do
  let preExponent ←
    if x.isZero then pure (none : Option Int)
    else do
      let d ← x.decadeE
      pure (some (d + 1 - figures))
  let prerounded ← x.preround preExponent
  let decade ←
    if x.isZero then pure (0 : Int)
    else prerounded.decadeE
  let rounded := prerounded.round (decade + 1 - figures) mode
  rounded.nudge figures

/-- Round a value to a given number of significant figures
(`round_to_figures`): `figures` must be positive, infinities and NaNs are
returned unchanged, and the rounded intermediate form is converted back to
the type of the input. -/
def roundToFigures (x : GenericValue) (figures : Int) (mode : RoundingMode) :
    Except String GenericValue :=
  if figures ≤ 0 then .error "figures must be positive"
  else if ¬ x.isFinite then .ok x
  else do
    let rounded ← roundToFiguresIntermediate x figures mode
    x.toTypeOf rounded

/-- Target format for a rounding operation (`rounders/format.py`):
minimum exponent, maximum number of significant figures, and whether
negative zeros are allowed. -/
structure TargetFormat where
  minimumExponent : Option Int := none
  maximumFigures : Option Int := none
  signedZero : Bool := true
deriving DecidableEq

/-- Minimum possible exponent for a value in a given decade
(`TargetFormat.minimum_exponent_for_decade`): the largest of the constraints
present, or `none` if the exponent can be arbitrarily small. -/
def TargetFormat.minimumExponentForDecade (self : TargetFormat) (decade : Int) :
    Option Int :=
  match self.minimumExponent, self.maximumFigures with
  | none, none => none
  | some m, none => some m
  | none, some f => some (decade + 1 - f)
  | some m, some f => some (max m (decade + 1 - f))

/-- Modelled from the spec: rounding the exact fraction
`(-1)**sign * n / d` directly to the target exponent with the given mode —
the right-hand side of the round-for-reround guarantee, "the same result as
rounding the original exact fraction directly".  Following §4.3 of the spec
at digit granularity, the scaled value is split into an integer part, a
tenths digit and a trailing remainder; any nonzero trailing remainder is
folded into a tenths digit of 0 or 5 so that the classification of the
fractional part is exact, and the mode decides the rounding. -/
def roundExactFraction (sign : Nat) (n d : Nat) (exponent : Int)
    (mode : RoundingMode) : IntermediateForm :=
  let nd := scaledPair n d exponent
  let kept := nd.1 / nd.2
  let rem := nd.1 % nd.2
  let tenths := 10 * rem / nd.2
  let trailing := 10 * rem % nd.2
  let roundingDigit := tenths + (if trailing ≠ 0 ∧ (tenths = 0 ∨ tenths = 5) then 1 else 0)
  ⟨sign, mode.round sign kept roundingDigit, exponent⟩

/-- The six to-nearest rounding modes (ties-to-zero/away/minus/plus/even/odd). -/
def isToNearest (m : RoundingMode) : Prop :=
  m = .TIES_TO_ZERO ∨ m = .TIES_TO_AWAY ∨ m = .TIES_TO_MINUS ∨
    m = .TIES_TO_PLUS ∨ m = .TIES_TO_EVEN ∨ m = .TIES_TO_ODD

/-- The rounding digit that `IntermediateForm.round` presents to the mode when
the remainder below the kept digits is `rem` and the rounding digit has place
value `T`: the digit `rem / T`, bumped by one when the trailing part is
nonzero and the digit is 0 or 5. -/
def digitOf (rem T : Nat) : Nat :=
  rem / T + (if rem % T ≠ 0 ∧ (rem / T = 0 ∨ rem / T = 5) then 1 else 0)

/-- Numeric value of a big-endian decimal digit string, used to relate the
string comparison in the fraction decade overload to the represented
numbers. -/
def digitsVal : List Nat → Nat
  | [] => 0
  | d :: rest => d * 10 ^ rest.length + digitsVal rest

/-! ### Basic facts about the rounding decision of a mode -/

lemma round_eq_self_or_succ (m : RoundingMode) (sign s d : Nat) :
    m.round sign s d = s ∨ m.round sign s d = s + 1 := by
  rcases m <;>
    simp only [RoundingMode.round, RoundingMode.signature, standardRound] <;>
    split_ifs <;> simp

lemma toNearest_round_eq (m : RoundingMode) (hm : isToNearest m) (sign s d : Nat) :
    ∃ t, (t = 4 ∨ t = 5) ∧ m.round sign s d = s + (if 10 ≤ d + t then 1 else 0) := by
  rcases hm with rfl | rfl | rfl | rfl | rfl | rfl <;>
    (refine ⟨_, ?_, rfl⟩; split_ifs <;> simp)

/-- C6: for every sign, nonnegative integer significand s, and digit d in 0..9,
TO_ZERO_05_AWAY.round(sign, s, d) equals s + 1 if d is nonzero and the last
decimal digit of s is 0 or 5 (i.e. s mod 5 == 0), and equals s otherwise. -/
theorem to_zero_05_away_round_eq (sign s d : Nat) (hd : d ≤ 9) :
    RoundingMode.TO_ZERO_05_AWAY.round sign s d =
      if d ≠ 0 ∧ s % 5 = 0 then s + 1 else s := by
  simp only [RoundingMode.round, RoundingMode.signature]
  split_ifs with h1 h2 <;> omega

/-- Witness for C6 at sign = 0, s = 15, d = 3. -/
theorem to_zero_05_away_round_eq_witness :
    RoundingMode.TO_ZERO_05_AWAY.round 0 15 3 =
      if (3 : Nat) ≠ 0 ∧ 15 % 5 = 0 then 15 + 1 else 15 :=
  to_zero_05_away_round_eq 0 15 3 (by decide)

/-- C7: for every IntermediateForm f, every rounding mode m and every target
exponent e with e <= f.exponent, f.round(e, m) equals
IntermediateForm(f.sign, f.significand * 10^(f.exponent - e), e) — the same
numeric value, independent of the mode; in particular rounding at f's own
exponent returns f unchanged for every mode. -/
theorem round_pad_and_idempotent (f : IntermediateForm) (m : RoundingMode) (e : Int)
    (he : e ≤ f.exponent) :
    f.round e m = ⟨f.sign, f.significand * 10 ^ (f.exponent - e).toNat, e⟩ ∧
    f.round f.exponent m = f := by
  constructor
  · unfold IntermediateForm.round
    rw [if_pos (by omega)]
  · unfold IntermediateForm.round
    rw [if_pos (by omega)]
    simp

/-- Witness for C7 at f = -1.23, m = TO_AWAY, e = -3. -/
theorem round_pad_and_idempotent_witness :
    IntermediateForm.round ⟨1, 123, -2⟩ (-3) .TO_AWAY
        = ⟨1, 123 * 10 ^ ((-2 : Int) - (-3)).toNat, -3⟩ ∧
    IntermediateForm.round ⟨1, 123, -2⟩ (-2) .TO_AWAY = ⟨1, 123, -2⟩ :=
  round_pad_and_idempotent ⟨1, 123, -2⟩ .TO_AWAY (-3) (by decide)

/-- C10: for every IntermediateForm f, every integer target exponent e and
every rounding mode m, the result f.round(e, m) has exponent exactly e and the
same sign field as f — in particular, rounding a negative nonzero value whose
magnitude rounds to zero produces a negative zero (sign 1, significand 0),
which is only cleared by an explicit force_unsigned_zero call. -/
theorem round_exponent_and_sign_invariant :
    (∀ (f : IntermediateForm) (e : Int) (m : RoundingMode),
        (f.round e m).exponent = e ∧ (f.round e m).sign = f.sign) ∧
    IntermediateForm.round ⟨1, 1, 0⟩ 1 .TIES_TO_EVEN = ⟨1, 0, 1⟩ ∧
    IntermediateForm.forceUnsignedZero ⟨1, 0, 1⟩ = ⟨0, 0, 1⟩ := by
  refine ⟨fun f e m => ?_, by decide, by decide⟩
  by_cases h : 0 ≤ f.exponent - e <;> simp [IntermediateForm.round, h]

/-- C8: round_to_int raises a ValueError whenever its input is not finite
(infinite or NaN), for every rounding mode, while round_to_places and
round_to_figures (with a valid positive figures argument) return a non-finite
input unchanged rather than raising. -/
theorem nonfinite_input_policy :
    (∀ (x : GenericValue) (mode : RoundingMode), x.isFinite = false →
        roundToInt x mode = .error "x must be finite") ∧
    (∀ (x : GenericValue) (places : Int) (mode : RoundingMode), x.isFinite = false →
        roundToPlaces x places mode = .ok x) ∧
    (∀ (x : GenericValue) (figures : Int) (mode : RoundingMode), x.isFinite = false →
        0 < figures → roundToFigures x figures mode = .ok x) := by
  refine ⟨fun x mode h => ?_, fun x places mode h => ?_, fun x figures mode h hf => ?_⟩
  · unfold roundToInt
    simp [h]
  · unfold roundToPlaces
    simp [h]
  · unfold roundToFigures
    rw [if_neg (by omega)]
    simp [h]

/-- Witness for C8 on NaN and infinite inputs. -/
theorem nonfinite_input_policy_witness :
    roundToInt .nan .TIES_TO_EVEN = .error "x must be finite" ∧
    roundToPlaces (.infinite 0) 2 .TO_ZERO = .ok (.infinite 0) ∧
    roundToFigures .nan 3 .TO_AWAY = .ok .nan :=
  ⟨nonfinite_input_policy.1 .nan .TIES_TO_EVEN rfl,
    nonfinite_input_policy.2.1 (.infinite 0) 2 .TO_ZERO rfl,
    nonfinite_input_policy.2.2 .nan 3 .TO_AWAY rfl (by decide)⟩


lemma rem_le_five_T (rem T : Nat) (hT : 0 < T) (h : digitOf rem T ≤ 5) :
    rem ≤ 5 * T := by
  unfold digitOf at h
  obtain ⟨c, hc⟩ : ∃ c, rem / T = c := ⟨_, rfl⟩
  obtain ⟨L, hL⟩ : ∃ L, rem % T = L := ⟨_, rfl⟩
  have hrem : T * c + L = rem := by rw [← hc, ← hL]; exact Nat.div_add_mod rem T
  have hLT : L < T := hL ▸ Nat.mod_lt _ hT
  rw [hc, hL] at h
  obtain ⟨P, hP⟩ : ∃ P, T * c = P := ⟨_, rfl⟩
  rw [hP] at hrem
  split_ifs at h with hb
  · have hc0 : c = 0 := by omega
    rw [hc0, Nat.mul_zero] at hP
    omega
  · rcases eq_or_ne c 5 with h5 | h5
    · have hL0 : L = 0 := by
        by_contra hL0
        exact hb ⟨hL0, Or.inr h5⟩
      rw [h5] at hP
      omega
    · have hc4 : c ≤ 4 := by omega
      have hP4 : P ≤ T * 4 := hP ▸ Nat.mul_le_mul_left T hc4
      omega

lemma five_T_le_rem (rem T : Nat) (hT : 0 < T) (h : 5 ≤ digitOf rem T) :
    5 * T ≤ rem := by
  unfold digitOf at h
  obtain ⟨c, hc⟩ : ∃ c, rem / T = c := ⟨_, rfl⟩
  obtain ⟨L, hL⟩ : ∃ L, rem % T = L := ⟨_, rfl⟩
  have hrem : T * c + L = rem := by rw [← hc, ← hL]; exact Nat.div_add_mod rem T
  have hLT : L < T := hL ▸ Nat.mod_lt _ hT
  rw [hc, hL] at h
  obtain ⟨P, hP⟩ : ∃ P, T * c = P := ⟨_, rfl⟩
  rw [hP] at hrem
  split_ifs at h with hb
  · have hc5 : c = 5 := by rcases hb.2 with h0 | h5 <;> omega
    rw [hc5] at hP
    omega
  · have h5c : 5 ≤ c := by omega
    have hP5 : T * 5 ≤ P := hP ▸ Nat.mul_le_mul_left T h5c
    omega

lemma round_eq_of_lt (f : IntermediateForm) (e : Int) (m : RoundingMode)
    (hlt : f.exponent < e) (k : Nat) (hk : e - f.exponent = (k : Int)) :
    f.round e m = ⟨f.sign,
      m.round f.sign (f.significand / 10 ^ k)
        (digitOf (f.significand % 10 ^ k) (10 ^ (k - 1))), e⟩ := by
  have h1 : (-(f.exponent - e + 1)).toNat = k - 1 := by omega
  have h2 : (10 : Nat) * 10 ^ (k - 1) = 10 ^ k := by
    conv_rhs => rw [show k = (k - 1) + 1 by omega]
    rw [pow_succ]
    ring
  unfold IntermediateForm.round
  rw [if_neg (by omega), h1]
  dsimp only
  rw [h2]
  rfl

lemma round_eq_of_ge (f : IntermediateForm) (e : Int) (m : RoundingMode)
    (he : e ≤ f.exponent) :
    f.round e m = ⟨f.sign, f.significand * 10 ^ (f.exponent - e).toNat, e⟩ := by
  unfold IntermediateForm.round
  rw [if_pos (by omega)]

lemma abs_round_sub_le_half (t d s : Nat) (ht : t = 4 ∨ t = 5) (hd : d ≤ 9) :
    |((s + (if 10 ≤ d + t then 1 else 0) : Nat) : Rat) - ((s : Rat) + (d : Rat) / 10)| ≤ 1 / 2 := by
  have hdq : ((d : Rat)) ≤ 9 := by exact_mod_cast hd
  split_ifs with h
  · have h5 : (5 : Rat) ≤ (d : Rat) := by exact_mod_cast (show 5 ≤ d by omega)
    push_cast
    rw [abs_le]
    constructor <;> linarith
  · have h5 : ((d : Rat)) ≤ 5 := by exact_mod_cast (show d ≤ 5 by omega)
    have h0 : (0 : Rat) ≤ (d : Rat) := by positivity
    push_cast
    rw [abs_le]
    constructor <;> linarith

lemma round_value_within (m : RoundingMode) (hm : isToNearest m) (f : IntermediateForm)
    (e : Int) (he : f.exponent ≤ e) :
    |(f.round e m).value - f.value| ≤ (10 : Rat) ^ e / 2 := by
  rcases eq_or_lt_of_le he with heq | hlt
  · rw [round_eq_of_ge f e m (le_of_eq heq.symm)]
    simp only [IntermediateForm.value, heq, sub_self, Int.toNat_zero, pow_zero, mul_one]
    rw [abs_zero]
    positivity
  · obtain ⟨k, hk⟩ : ∃ k : Nat, e - f.exponent = (k : Int) := ⟨(e - f.exponent).toNat, by omega⟩
    have hk1 : 1 ≤ k := by omega
    rw [round_eq_of_lt f e m hlt k hk]
    set s := f.significand with hs
    set T : Nat := 10 ^ (k - 1) with hT
    set kept := s / 10 ^ k with hkept
    set rem := s % 10 ^ k with hrem
    obtain ⟨t, ht, hteq⟩ := toNearest_round_eq m hm f.sign kept (digitOf rem T)
    obtain ⟨c, hc⟩ : ∃ c, (if 10 ≤ digitOf rem T + t then 1 else 0) = c := ⟨_, rfl⟩
    rw [hc] at hteq
    have hTpos : 0 < T := pow_pos (by norm_num) _
    have h10k : (10 : Nat) ^ k = 10 * T := by
      rw [hT, ← pow_succ']
      congr 1
      omega
    have hsplit : 10 ^ k * kept + rem = s := Nat.div_add_mod s (10 ^ k)
    have hremlt : rem < 10 * T := by
      rw [← h10k]
      exact Nat.mod_lt _ (pow_pos (by norm_num) k)
    have hcase : (c = 0 ∧ rem ≤ 5 * T) ∨ (c = 1 ∧ 5 * T ≤ rem) := by
      by_cases hd : 10 ≤ digitOf rem T + t
      · refine Or.inr ⟨?_, five_T_le_rem rem T hTpos (by omega)⟩
        rw [← hc, if_pos hd]
      · refine Or.inl ⟨?_, rem_le_five_T rem T hTpos (by omega)⟩
        rw [← hc, if_neg hd]
    simp only [IntermediateForm.value, hteq]
    have hE : (10 : Rat) ^ e = (10 : Rat) ^ f.exponent * ((10 * T : Nat) : Rat) := by
      rw [← h10k]
      rw [show ((10 ^ k : Nat) : Rat) = (10 : Rat) ^ (k : Int) by
        rw [zpow_natCast]; push_cast; ring]
      rw [← zpow_add₀ (by norm_num : (10 : Rat) ≠ 0)]
      congr 1
      omega
    have habs1 : |(-1 : Rat) ^ f.sign| = 1 := by
      rw [abs_pow, abs_neg, abs_one, one_pow]
    have hEpos : (0 : Rat) < (10 : Rat) ^ f.exponent := zpow_pos (by norm_num) _
    have key : ((kept + c : Nat) : Rat) * (10 : Rat) ^ e - (s : Rat) * (10 : Rat) ^ f.exponent
        = ((c : Rat) * ((10 * T : Nat) : Rat) - (rem : Rat)) * (10 : Rat) ^ f.exponent := by
      rw [hE, ← hsplit, h10k]
      push_cast
      ring
    have habs : |(c : Rat) * ((10 * T : Nat) : Rat) - (rem : Rat)| ≤ ((10 * T : Nat) : Rat) / 2 := by
      have hremQ : (rem : Rat) < ((10 * T : Nat) : Rat) := by exact_mod_cast hremlt
      have hTQ : (0 : Rat) < (T : Rat) := by exact_mod_cast hTpos
      rcases hcase with ⟨rfl, hle⟩ | ⟨rfl, hle⟩
      · have hleQ : (rem : Rat) ≤ 5 * (T : Rat) := by exact_mod_cast hle
        rw [abs_le]
        push_cast at hremQ ⊢
        constructor <;> linarith
      · have hleQ : 5 * (T : Rat) ≤ (rem : Rat) := by exact_mod_cast hle
        rw [abs_le]
        push_cast at hremQ ⊢
        constructor <;> linarith
    have hfactor : (-1 : Rat) ^ f.sign * ((kept + c : Nat) : Rat) * (10 : Rat) ^ e -
        (-1 : Rat) ^ f.sign * (s : Rat) * (10 : Rat) ^ f.exponent =
        (-1 : Rat) ^ f.sign *
          (((kept + c : Nat) : Rat) * (10 : Rat) ^ e - (s : Rat) * (10 : Rat) ^ f.exponent) := by
      ring
    rw [hfactor, abs_mul, habs1, one_mul, key, abs_mul, abs_of_pos hEpos, hE]
    calc |(c : Rat) * ((10 * T : Nat) : Rat) - (rem : Rat)| * (10 : Rat) ^ f.exponent
        ≤ (((10 * T : Nat) : Rat) / 2) * (10 : Rat) ^ f.exponent :=
          mul_le_mul_of_nonneg_right habs (le_of_lt hEpos)
      _ = (10 : Rat) ^ f.exponent * ((10 * T : Nat) : Rat) / 2 := by ring

/-- C4: for each of the six to-nearest rounding modes, for every sign, every
nonnegative integer significand s and every digit d in 0..9, the rounded
integer r = mode.round(sign, s, d) satisfies |r - (s + d/10)| <= 1/2 as an
exact rational comparison; lifted through IntermediateForm.round, rounding an
exactly represented value to a coarser exponent e with a to-nearest mode
yields a result within 10^e / 2 of the original value. -/
theorem nearest_property (m : RoundingMode) (hm : isToNearest m) :
    (∀ sign s d : Nat, d ≤ 9 →
        |((m.round sign s d : Nat) : Rat) - ((s : Rat) + (d : Rat) / 10)| ≤ 1 / 2) ∧
    (∀ (f : IntermediateForm) (e : Int), f.exponent ≤ e →
        |(f.round e m).value - f.value| ≤ (10 : Rat) ^ e / 2) := by
  constructor
  · intro sign s d hd
    obtain ⟨t, ht, hteq⟩ := toNearest_round_eq m hm sign s d
    rw [hteq]
    exact abs_round_sub_le_half t d s ht hd
  · intro f e he
    exact round_value_within m hm f e he

/-- Witness for C4: ties-to-even rounding of 2.5 stays within one half, and
rounding -2.5 to exponent 0 with ties-to-away stays within 1/2. -/
theorem nearest_property_witness :
    |((RoundingMode.TIES_TO_EVEN.round 0 2 5 : Nat) : Rat) - ((2 : Rat) + (5 : Rat) / 10)| ≤ 1 / 2 ∧
    |((IntermediateForm.round ⟨1, 25, -1⟩ 0 .TIES_TO_AWAY).value -
        (⟨1, 25, -1⟩ : IntermediateForm).value)| ≤ (10 : Rat) ^ (0 : Int) / 2 :=
  ⟨(nearest_property .TIES_TO_EVEN (Or.inr (Or.inr (Or.inr (Or.inr (Or.inl rfl)))))).1 0 2 5
      (by norm_num),
    (nearest_property .TIES_TO_AWAY (Or.inr (Or.inl rfl))).2 ⟨1, 25, -1⟩ 0 (by norm_num)⟩


lemma factorMultiplicity_dvd (p d : Nat) : p ^ factorMultiplicity p d ∣ d := by
  induction d using Nat.strong_induction_on with
  | _ d ih =>
    unfold factorMultiplicity
    split_ifs with h
    · obtain ⟨hp, hd, hmod⟩ := h
      have hdvd : p ∣ d := Nat.dvd_of_mod_eq_zero hmod
      have hlt : d / p < d := Nat.div_lt_self hd (by omega)
      have hk := ih (d / p) hlt
      rw [pow_succ]
      calc p ^ factorMultiplicity p (d / p) * p ∣ (d / p) * p :=
            mul_dvd_mul_right hk p
        _ = d := Nat.div_mul_cancel hdvd
    · simp

lemma factorMultiplicity_not_dvd (p d : Nat) (hp : 2 ≤ p) (hd : 0 < d) :
    ¬ p ∣ d / p ^ factorMultiplicity p d := by
  induction d using Nat.strong_induction_on with
  | _ d ih =>
    unfold factorMultiplicity
    split_ifs with h
    · obtain ⟨-, -, hmod⟩ := h
      have hdvd : p ∣ d := Nat.dvd_of_mod_eq_zero hmod
      have hlt : d / p < d := Nat.div_lt_self hd (by omega)
      have hpos : 0 < d / p := Nat.div_pos (Nat.le_of_dvd hd hdvd) (by omega)
      have := ih (d / p) hlt hpos
      rw [pow_succ, mul_comm, ← Nat.div_div_eq_div_mul]
      exact this
    · intro hcontra
      rw [pow_zero, Nat.div_one] at hcontra
      exact h ⟨hp, hd, Nat.mod_eq_zero_of_dvd hcontra⟩

lemma factorMultiplicity_unique (p a m : Nat) (hp : 2 ≤ p) (hm : 0 < m)
    (hnd : ¬ p ∣ m) : factorMultiplicity p (p ^ a * m) = a := by
  have hdpos : 0 < p ^ a * m := Nat.mul_pos (pow_pos (by omega) a) hm
  have hdvd := factorMultiplicity_dvd p (p ^ a * m)
  have hnot := factorMultiplicity_not_dvd p (p ^ a * m) hp hdpos
  obtain ⟨k, hkdef⟩ : ∃ k, factorMultiplicity p (p ^ a * m) = k := ⟨_, rfl⟩
  rw [hkdef] at hdvd hnot ⊢
  by_contra hne
  rcases Nat.lt_or_ge k a with hlt | hge
  · apply hnot
    have hsplit : p ^ a * m = p ^ k * (p ^ (a - k) * m) := by
      rw [← mul_assoc, ← pow_add]
      congr 2
      omega
    rw [hsplit, Nat.mul_div_cancel_left _ (pow_pos (by omega) _)]
    exact Dvd.dvd.mul_right (dvd_pow_self p (by omega)) m
  · have hgt : a < k := by omega
    apply hnd
    have hsplit : p ^ k = p ^ a * p ^ (k - a) := by
      rw [← pow_add]
      congr 1
      omega
    rw [hsplit] at hdvd
    have := (mul_dvd_mul_iff_left (a := p ^ a) (by positivity)).mp hdvd
    exact dvd_trans (dvd_pow_self p (by omega)) this

lemma smallestTenPowerMultiple_of_form (a b : Nat) :
    smallestTenPowerMultiple (2 ^ a * 5 ^ b) = .ok (max a b) := by
  have h2 : factorMultiplicity 2 (2 ^ a * 5 ^ b) = a := by
    refine factorMultiplicity_unique 2 a (5 ^ b) (by norm_num) (pow_pos (by norm_num) _) ?_
    intro h
    have := Nat.Prime.dvd_of_dvd_pow Nat.prime_two h
    norm_num at this
  have hd1 : 2 ^ a * 5 ^ b / 2 ^ a = 5 ^ b :=
    Nat.mul_div_cancel_left _ (pow_pos (by norm_num) _)
  have h5 : factorMultiplicity 5 (5 ^ b) = b := by
    have := factorMultiplicity_unique 5 b 1 (by norm_num) one_pos (by norm_num)
    simpa using this
  simp only [smallestTenPowerMultiple]
  rw [h2, hd1, h5, Nat.div_self (pow_pos (by norm_num) b)]
  simp

lemma smallestTenPowerMultiple_form_of_ok (d : Nat) (e : Nat)
    (h : smallestTenPowerMultiple d = .ok e) :
    ∃ a b : Nat, d = 2 ^ a * 5 ^ b ∧ e = max a b := by
  simp only [smallestTenPowerMultiple] at h
  refine ⟨factorMultiplicity 2 d, factorMultiplicity 5 (d / 2 ^ factorMultiplicity 2 d), ?_, ?_⟩
  · split_ifs at h with h1
    have hd1 : d = 2 ^ factorMultiplicity 2 d * (d / 2 ^ factorMultiplicity 2 d) :=
      (Nat.mul_div_cancel' (factorMultiplicity_dvd 2 d)).symm
    have hd2 : d / 2 ^ factorMultiplicity 2 d =
        5 ^ factorMultiplicity 5 (d / 2 ^ factorMultiplicity 2 d) *
          (d / 2 ^ factorMultiplicity 2 d / 5 ^ factorMultiplicity 5 (d / 2 ^ factorMultiplicity 2 d)) :=
      (Nat.mul_div_cancel' (factorMultiplicity_dvd 5 _)).symm
    rw [not_not] at h1
    rw [h1, mul_one] at hd2
    rw [hd2] at hd1
    exact hd1
  · split_ifs at h with h1
    exact (Except.ok.inj h).symm

lemma stpm_ok_or_error (d : Nat) :
    smallestTenPowerMultiple d =
        .ok (max (factorMultiplicity 2 d)
          (factorMultiplicity 5 (d / 2 ^ factorMultiplicity 2 d))) ∨
    smallestTenPowerMultiple d = .error "d is not a divisor of any power of 10" := by
  simp only [smallestTenPowerMultiple]
  split_ifs with h
  · right
    rfl
  · left
    rfl

/-- C3: from_signed_fraction with exponent None, given coprime numerator >= 0
and denominator > 0, succeeds if and only if the denominator is of the form
2^a * 5^b; on success it returns the exact value with exponent -e where
e = max(a, b) and significand = numerator * 10^e / denominator, and it raises
a ValueError if the denominator has any prime factor other than 2 or 5. -/
theorem from_signed_fraction_exact_conversion (sign n d : Nat) (hd : 0 < d) (hcop : Nat.Coprime n d) :
    (∀ a b : Nat, d = 2 ^ a * 5 ^ b →
      IntermediateForm.fromSignedFraction sign (n : Int) (d : Int) none =
          .ok ⟨sign, n * (10 ^ (max a b) / d), -((max a b : Nat) : Int)⟩ ∧
        (IntermediateForm.mk sign (n * (10 ^ (max a b) / d)) (-((max a b : Nat) : Int))).value =
          (-1 : Rat) ^ sign * (n : Rat) / (d : Rat)) ∧
    ((¬ ∃ a b : Nat, d = 2 ^ a * 5 ^ b) →
      IntermediateForm.fromSignedFraction sign (n : Int) (d : Int) none =
        .error "d is not a divisor of any power of 10") := by
  have hguard : ¬((n : Int) < 0 ∨ (d : Int) ≤ 0) := by
    push_neg
    constructor <;> omega
  constructor
  · rintro a b rfl
    constructor
    · simp only [IntermediateForm.fromSignedFraction]
      rw [if_neg hguard]
      simp only [Int.toNat_natCast]
      rw [smallestTenPowerMultiple_of_form a b]
    · have hdvd : (2 ^ a * 5 ^ b : Nat) ∣ 10 ^ (max a b) := by
        have h10 : (10 : Nat) ^ (max a b) = 2 ^ (max a b) * 5 ^ (max a b) := by
          rw [← mul_pow]
          norm_num
        rw [h10]
        exact mul_dvd_mul (pow_dvd_pow 2 (le_max_left a b)) (pow_dvd_pow 5 (le_max_right a b))
      simp only [IntermediateForm.value]
      rw [Nat.cast_mul, Nat.cast_div hdvd (by positivity), zpow_neg, zpow_natCast]
      push_cast
      have h2 : ((2 : Rat) ^ a * 5 ^ b) ≠ 0 := by positivity
      have h10 : ((10 : Rat) ^ (max a b)) ≠ 0 := by positivity
      field_simp
      ring
  · intro hne
    simp only [IntermediateForm.fromSignedFraction]
    rw [if_neg hguard]
    simp only [Int.toNat_natCast]
    rcases stpm_ok_or_error d with hok | herr
    · exfalso
      obtain ⟨a, b, hab, -⟩ := smallestTenPowerMultiple_form_of_ok d _ hok
      exact hne ⟨a, b, hab⟩
    · rw [herr]

/-- Witness for C3 at 1/40 = 1 / (2^3 * 5^1): exact conversion gives 25e-3. -/
theorem from_signed_fraction_exact_conversion_witness :
    IntermediateForm.fromSignedFraction 0 (1 : Int) (40 : Int) none =
        .ok ⟨0, 1 * (10 ^ (max 3 1) / 40), -((max 3 1 : Nat) : Int)⟩ ∧
      (IntermediateForm.mk 0 (1 * (10 ^ (max 3 1) / 40)) (-((max 3 1 : Nat) : Int))).value =
        (-1 : Rat) ^ 0 * (1 : Rat) / (40 : Rat) :=
  (from_signed_fraction_exact_conversion 0 1 40 (by norm_num) (by decide)).1 3 1 (by norm_num)


lemma digitsVal_lt (l : List Nat) (h : ∀ x ∈ l, x < 10) :
    digitsVal l < 10 ^ l.length := by
  induction l with
  | nil => simp [digitsVal]
  | cons d rest ih =>
    have hd : d < 10 := h d (List.mem_cons_self d rest)
    have hrest := ih (fun x hx => h x (List.mem_cons_of_mem d hx))
    simp only [digitsVal, List.length_cons]
    calc d * 10 ^ rest.length + digitsVal rest
        < d * 10 ^ rest.length + 10 ^ rest.length := by omega
      _ = (d + 1) * 10 ^ rest.length := by ring
      _ ≤ 10 * 10 ^ rest.length := Nat.mul_le_mul_right _ (by omega)
      _ = 10 ^ (rest.length + 1) := by rw [pow_succ]; ring

lemma digitsVal_pos (l : List Nat) (hne : l ≠ []) (hlast : l.getLast? ≠ some 0) :
    0 < digitsVal l := by
  induction l with
  | nil => exact absurd rfl hne
  | cons d rest ih =>
    rcases Decidable.em (rest = []) with hr | hr
    · subst hr
      have : d ≠ 0 := by
        intro h
        rw [h] at hlast
        simp at hlast
      simp only [digitsVal, List.length_nil, pow_zero, mul_one]
      omega
    · have hlast' : rest.getLast? ≠ some 0 := by
        obtain ⟨e, rest', rfl⟩ := List.exists_cons_of_ne_nil hr
        rwa [List.getLast?_cons_cons] at hlast
      have := ih hr hlast'
      simp only [digitsVal]
      omega

lemma getLast?_tail_ne {a : Nat} {as : List Nat} (h : (a :: as).getLast? ≠ some 0) :
    as.getLast? ≠ some 0 := by
  rcases Decidable.em (as = []) with hr | hr
  · subst hr
    simp
  · obtain ⟨e, rest', rfl⟩ := List.exists_cons_of_ne_nil hr
    rwa [List.getLast?_cons_cons] at h

lemma pow_shift_eq (a A B : Nat) :
    a * 10 ^ A * 10 ^ (B + 1) = a * 10 ^ B * 10 ^ (A + 1) := by
  rw [mul_assoc, mul_assoc, ← pow_add, ← pow_add, show A + (B + 1) = B + (A + 1) from by omega]

lemma digitListLt_iff (u : List Nat) : ∀ (v : List Nat),
    (∀ x ∈ u, x < 10) → (∀ x ∈ v, x < 10) →
    u.getLast? ≠ some 0 → v.getLast? ≠ some 0 →
    (digitListLt u v = true ↔ digitsVal u * 10 ^ v.length < digitsVal v * 10 ^ u.length) := by
  induction u with
  | nil =>
    intro v _ hv _ hv0
    cases v with
    | nil => simp [digitListLt, digitsVal]
    | cons b bs =>
      simp only [digitListLt, digitsVal, List.length_nil, pow_zero, mul_one, true_iff]
      have := digitsVal_pos (b :: bs) (by simp) hv0
      simp only [digitsVal] at this
      omega
  | cons a as ih =>
    intro v hu hv hu0 hv0
    cases v with
    | nil => simp [digitListLt, digitsVal]
    | cons b bs =>
      have hu' : ∀ x ∈ as, x < 10 := fun x hx => hu x (List.mem_cons_of_mem a hx)
      have hv' : ∀ x ∈ bs, x < 10 := fun x hx => hv x (List.mem_cons_of_mem b hx)
      have ha : a < 10 := hu a (List.mem_cons_self a as)
      have hb : b < 10 := hv b (List.mem_cons_self b bs)
      have hvas : digitsVal as < 10 ^ as.length := digitsVal_lt as hu'
      have hvbs : digitsVal bs < 10 ^ bs.length := digitsVal_lt bs hv'
      simp only [digitListLt, digitsVal, List.length_cons]
      rcases Nat.lt_trichotomy a b with hab | hab | hab
      · rw [if_pos hab]
        simp only [true_iff]
        calc (a * 10 ^ as.length + digitsVal as) * 10 ^ (bs.length + 1)
            < (a * 10 ^ as.length + 10 ^ as.length) * 10 ^ (bs.length + 1) :=
              (Nat.mul_lt_mul_right (pow_pos (by norm_num) _)).mpr (by omega)
          _ = (a + 1) * 10 ^ as.length * 10 ^ (bs.length + 1) := by ring
          _ ≤ b * 10 ^ as.length * 10 ^ (bs.length + 1) :=
              Nat.mul_le_mul_right _ (Nat.mul_le_mul_right _ (by omega))
          _ = b * 10 ^ bs.length * 10 ^ (as.length + 1) := pow_shift_eq b as.length bs.length
          _ ≤ (b * 10 ^ bs.length + digitsVal bs) * 10 ^ (as.length + 1) :=
              Nat.mul_le_mul_right _ (by omega)
      · subst hab
        rw [if_neg (lt_irrefl a), if_neg (lt_irrefl a)]
        rw [ih bs hu' hv' (getLast?_tail_ne hu0) (getLast?_tail_ne hv0)]
        rw [add_mul, add_mul, pow_shift_eq a as.length bs.length, Nat.add_lt_add_iff_left]
        rw [pow_succ, pow_succ, ← mul_assoc, ← mul_assoc]
        exact (Nat.mul_lt_mul_right (by norm_num)).symm
      · rw [if_neg (by omega), if_pos hab]
        simp only [Bool.false_eq_true, false_iff, not_lt]
        calc (b * 10 ^ bs.length + digitsVal bs) * 10 ^ (as.length + 1)
            ≤ (b * 10 ^ bs.length + 10 ^ bs.length) * 10 ^ (as.length + 1) :=
              Nat.mul_le_mul_right _ (by omega)
          _ = (b + 1) * 10 ^ bs.length * 10 ^ (as.length + 1) := by ring
          _ ≤ a * 10 ^ bs.length * 10 ^ (as.length + 1) :=
              Nat.mul_le_mul_right _ (Nat.mul_le_mul_right _ (by omega))
          _ = a * 10 ^ as.length * 10 ^ (bs.length + 1) := pow_shift_eq a bs.length as.length
          _ ≤ (a * 10 ^ as.length + digitsVal as) * 10 ^ (bs.length + 1) :=
              Nat.mul_le_mul_right _ (by omega)

lemma digitsVal_append_singleton (u : List Nat) (d : Nat) :
    digitsVal (u ++ [d]) = 10 * digitsVal u + d := by
  induction u with
  | nil => simp [digitsVal]
  | cons x u ih =>
    rw [List.cons_append]
    show x * 10 ^ (u ++ [d]).length + digitsVal (u ++ [d]) =
      10 * (x * 10 ^ u.length + digitsVal u) + d
    rw [ih, List.length_append]
    simp only [List.length_cons, List.length_nil]
    ring

lemma digitsVal_reverse (l : List Nat) : digitsVal l.reverse = Nat.ofDigits 10 l := by
  induction l with
  | nil => simp [digitsVal, Nat.ofDigits_nil]
  | cons d rest ih =>
    rw [List.reverse_cons, digitsVal_append_singleton, ih, Nat.ofDigits_cons]
    omega

lemma ofDigits_all_zero (l : List Nat) (h : ∀ x ∈ l, x = 0) : Nat.ofDigits 10 l = 0 := by
  induction l with
  | nil => simp
  | cons d rest ih =>
    rw [Nat.ofDigits_cons, h d (List.mem_cons_self d rest),
      ih (fun x hx => h x (List.mem_cons_of_mem d hx))]

lemma stripTrailingZeros_digitString (n : Nat) :
    stripTrailingZeros (digitString n) =
      ((Nat.digits 10 n).dropWhile (fun c => c = 0)).reverse := by
  simp [stripTrailingZeros, digitString]

lemma strip_facts (n : Nat) :
    (∀ d ∈ stripTrailingZeros (digitString n), d < 10) ∧
    (stripTrailingZeros (digitString n)).getLast? ≠ some 0 ∧
    digitsVal (stripTrailingZeros (digitString n)) *
        10 ^ ((Nat.digits 10 n).length - (stripTrailingZeros (digitString n)).length) = n ∧
    (stripTrailingZeros (digitString n)).length ≤ (Nat.digits 10 n).length := by
  rw [stripTrailingZeros_digitString]
  have hmem : ∀ d ∈ ((Nat.digits 10 n).dropWhile (fun c => c = 0)).reverse, d < 10 := by
    intro d hd
    rw [List.mem_reverse] at hd
    exact Nat.digits_lt_base (by norm_num) ((List.dropWhile_sublist _).subset hd)
  have hlast : (((Nat.digits 10 n).dropWhile (fun c => c = 0)).reverse).getLast? ≠ some 0 := by
    rw [List.getLast?_reverse]
    have hmatch := List.head?_dropWhile_not (fun c => decide (c = 0)) (Nat.digits 10 n)
    rcases hh : ((Nat.digits 10 n).dropWhile (fun c => c = 0)).head? with _ | d
    · rw [hh]
      simp
    · rw [hh]
      rw [hh] at hmatch
      simp only [decide_eq_false_iff_not] at hmatch
      intro hcontra
      exact hmatch (by injection hcontra)
  have hlen : ((Nat.digits 10 n).dropWhile (fun c => c = 0)).reverse.length ≤
      (Nat.digits 10 n).length := by
    rw [List.length_reverse]
    exact (List.dropWhile_sublist _).length_le
  refine ⟨hmem, hlast, ?_, hlen⟩
  rw [digitsVal_reverse, List.length_reverse]
  have hsplit : (Nat.digits 10 n).takeWhile (fun c => c = 0) ++
      (Nat.digits 10 n).dropWhile (fun c => c = 0) = Nat.digits 10 n :=
    List.takeWhile_append_dropWhile _ _
  have hval : n = Nat.ofDigits 10 ((Nat.digits 10 n).takeWhile (fun c => c = 0) ++
      (Nat.digits 10 n).dropWhile (fun c => c = 0)) := by
    rw [hsplit, Nat.ofDigits_digits]
  rw [Nat.ofDigits_append] at hval
  rw [ofDigits_all_zero _ (fun x hx => by
    have := List.mem_takeWhile_imp hx
    simpa using this)] at hval
  have hlen2 : ((Nat.digits 10 n).takeWhile (fun c => c = 0)).length =
      (Nat.digits 10 n).length - ((Nat.digits 10 n).dropWhile (fun c => c = 0)).length := by
    have := congrArg List.length hsplit
    rw [List.length_append] at this
    omega
  rw [hlen2] at hval
  simp only [Nat.zero_add] at hval
  rw [mul_comm] at hval
  exact hval.symm

lemma mul_pow_lt_iff_shift (V W LV LW ZV ZW : Nat) :
    V * 10 ^ LW < W * 10 ^ LV ↔
      (V * 10 ^ ZV) * 10 ^ (LW + ZW) < (W * 10 ^ ZW) * 10 ^ (LV + ZV) := by
  have e1 : (V * 10 ^ ZV) * 10 ^ (LW + ZW) = (V * 10 ^ LW) * 10 ^ (ZV + ZW) := by
    rw [mul_assoc, mul_assoc, ← pow_add, ← pow_add,
      show ZV + (LW + ZW) = LW + (ZV + ZW) from by omega]
  have e2 : (W * 10 ^ ZW) * 10 ^ (LV + ZV) = (W * 10 ^ LV) * 10 ^ (ZV + ZW) := by
    rw [mul_assoc, mul_assoc, ← pow_add, ← pow_add,
      show ZW + (LV + ZV) = LV + (ZV + ZW) from by omega]
  rw [e1, e2]
  exact (Nat.mul_lt_mul_right (pow_pos (by norm_num) _)).symm

lemma lex_compare (x y : Nat) :
    (digitListLt (stripTrailingZeros (digitString x)) (stripTrailingZeros (digitString y)) = true)
      ↔ x * 10 ^ (Nat.digits 10 y).length < y * 10 ^ (Nat.digits 10 x).length := by
  obtain ⟨hdx, hlx, hvx, hlenx⟩ := strip_facts x
  obtain ⟨hdy, hly, hvy, hleny⟩ := strip_facts y
  rw [digitListLt_iff _ _ hdx hdy hlx hly]
  rw [mul_pow_lt_iff_shift _ _ _ _
    ((Nat.digits 10 x).length - (stripTrailingZeros (digitString x)).length)
    ((Nat.digits 10 y).length - (stripTrailingZeros (digitString y)).length)]
  rw [hvx, hvy]
  rw [show (stripTrailingZeros (digitString y)).length +
      ((Nat.digits 10 y).length - (stripTrailingZeros (digitString y)).length) =
      (Nat.digits 10 y).length from by omega]
  rw [show (stripTrailingZeros (digitString x)).length +
      ((Nat.digits 10 x).length - (stripTrailingZeros (digitString x)).length) =
      (Nat.digits 10 x).length from by omega]

lemma digitString_length (n : Nat) :
    (digitString n).length = (Nat.digits 10 n).length := by
  simp [digitString]

lemma digits_len_bounds (a : Nat) (ha : 0 < a) :
    10 ^ ((Nat.digits 10 a).length - 1) ≤ a ∧ a < 10 ^ (Nat.digits 10 a).length := by
  have hlen : (Nat.digits 10 a).length = Nat.log 10 a + 1 :=
    Nat.digits_len 10 a (by norm_num) (by omega)
  constructor
  · rw [hlen]
    simpa using Nat.pow_log_le_self 10 (by omega : a ≠ 0)
  · rw [hlen]
    exact Nat.lt_pow_succ_log_self (by norm_num) a

lemma zpow_nat_sub_le_div_iff (P Q a den : Nat) (hden : 0 < den) :
    (10 : Rat) ^ ((P : Int) - Q) ≤ (a : Rat) / (den : Rat) ↔ 10 ^ P * den ≤ a * 10 ^ Q := by
  rw [zpow_sub₀ (by norm_num : (10 : Rat) ≠ 0), zpow_natCast, zpow_natCast,
    div_le_div_iff₀ (by positivity) (by positivity)]
  constructor <;> intro h <;> exact_mod_cast h

lemma div_lt_zpow_nat_sub_iff (P Q a den : Nat) (hden : 0 < den) :
    (a : Rat) / (den : Rat) < (10 : Rat) ^ ((P : Int) - Q) ↔ a * 10 ^ Q < 10 ^ P * den := by
  rw [zpow_sub₀ (by norm_num : (10 : Rat) ≠ 0), zpow_natCast, zpow_natCast,
    div_lt_div_iff₀ (by positivity) (by positivity)]
  constructor <;> intro h <;> exact_mod_cast h

lemma decadeFraction_spec (num : Int) (den : Nat) (hden : 0 < den) :
    (num = 0 → decadeFraction num den = .error "decade input must be nonzero") ∧
    (num ≠ 0 → ∃ e : Int, decadeFraction num den = .ok e ∧
      (10 : Rat) ^ e ≤ |(num : Rat)| / (den : Rat) ∧
      |(num : Rat)| / (den : Rat) < (10 : Rat) ^ (e + 1) ∧
      (∀ e' : Int, (10 : Rat) ^ e' ≤ |(num : Rat)| / (den : Rat) →
        |(num : Rat)| / (den : Rat) < (10 : Rat) ^ (e' + 1) → e' = e)) := by
  constructor
  · intro h
    simp [decadeFraction, h]
  · intro hnum
    have ha : 0 < num.natAbs := Int.natAbs_pos.mpr hnum
    have habs : |(num : Rat)| = (num.natAbs : Rat) := by
      rw [Int.cast_natAbs, Int.cast_abs]
    obtain ⟨halo, hahi⟩ := digits_len_bounds num.natAbs ha
    obtain ⟨hdlo, hdhi⟩ := digits_len_bounds den hden
    have hpx1 : 1 ≤ (Nat.digits 10 num.natAbs).length :=
      List.length_pos.mpr (Nat.digits_ne_nil_iff_ne_zero.mpr (by omega))
    have hpy1 : 1 ≤ (Nat.digits 10 den).length :=
      List.length_pos.mpr (Nat.digits_ne_nil_iff_ne_zero.mpr (by omega))
    have hok : decadeFraction num den =
        .ok (((Nat.digits 10 num.natAbs).length : Int) - (Nat.digits 10 den).length -
          (if digitListLt (stripTrailingZeros (digitString num.natAbs))
              (stripTrailingZeros (digitString den)) then 1 else 0)) := by
      simp only [decadeFraction, if_neg hnum, digitString_length]
    refine ⟨_, hok, ?_⟩
    rw [habs]
    have hcmp := lex_compare num.natAbs den
    have huniq : ∀ eA eB : Int, (10 : Rat) ^ eA ≤ (num.natAbs : Rat) / (den : Rat) →
        (num.natAbs : Rat) / (den : Rat) < (10 : Rat) ^ (eA + 1) →
        (10 : Rat) ^ eB ≤ (num.natAbs : Rat) / (den : Rat) →
        (num.natAbs : Rat) / (den : Rat) < (10 : Rat) ^ (eB + 1) → eA = eB := by
      intro eA eB h1 h2 h3 h4
      have hAB : eA < eB + 1 := by
        rw [← zpow_lt_zpow_iff_right₀ (by norm_num : (1 : Rat) < 10)]
        exact lt_of_le_of_lt h1 h4
      have hBA : eB < eA + 1 := by
        rw [← zpow_lt_zpow_iff_right₀ (by norm_num : (1 : Rat) < 10)]
        exact lt_of_le_of_lt h3 h2
      omega
    by_cases hlex : digitListLt (stripTrailingZeros (digitString num.natAbs))
        (stripTrailingZeros (digitString den)) = true
    · rw [if_pos hlex]
      rw [hcmp] at hlex
      have hlow : (10 : Rat) ^ (((Nat.digits 10 num.natAbs).length : Int) -
          (Nat.digits 10 den).length - 1) ≤ (num.natAbs : Rat) / (den : Rat) := by
        rw [show ((Nat.digits 10 num.natAbs).length : Int) - (Nat.digits 10 den).length - 1 =
            (((Nat.digits 10 num.natAbs).length - 1 : Nat) : Int) -
              (Nat.digits 10 den).length from by omega]
        rw [zpow_nat_sub_le_div_iff _ _ _ _ hden]
        calc 10 ^ ((Nat.digits 10 num.natAbs).length - 1) * den
            ≤ num.natAbs * den := Nat.mul_le_mul_right _ halo
          _ ≤ num.natAbs * 10 ^ (Nat.digits 10 den).length :=
              Nat.mul_le_mul_left _ (le_of_lt hdhi)
      have hhigh : (num.natAbs : Rat) / (den : Rat) <
          (10 : Rat) ^ (((Nat.digits 10 num.natAbs).length : Int) -
            (Nat.digits 10 den).length - 1 + 1) := by
        rw [show ((Nat.digits 10 num.natAbs).length : Int) -
            (Nat.digits 10 den).length - 1 + 1 =
            (((Nat.digits 10 num.natAbs).length : Nat) : Int) -
              (Nat.digits 10 den).length from by omega]
        rw [div_lt_zpow_nat_sub_iff _ _ _ _ hden]
        rw [mul_comm den (10 ^ (Nat.digits 10 num.natAbs).length)] at hlex
        exact hlex
      exact ⟨hlow, hhigh, fun e' h1 h2 => huniq e' _ h1 h2 hlow hhigh⟩
    · rw [if_neg hlex]
      have hge : den * 10 ^ (Nat.digits 10 num.natAbs).length ≤
          num.natAbs * 10 ^ (Nat.digits 10 den).length := by
        rcases Nat.lt_or_ge (num.natAbs * 10 ^ (Nat.digits 10 den).length)
          (den * 10 ^ (Nat.digits 10 num.natAbs).length) with hl | hg
        · exact absurd (hcmp.mpr hl) hlex
        · exact hg
      have hlow : (10 : Rat) ^ (((Nat.digits 10 num.natAbs).length : Int) -
          (Nat.digits 10 den).length - 0) ≤ (num.natAbs : Rat) / (den : Rat) := by
        rw [show ((Nat.digits 10 num.natAbs).length : Int) - (Nat.digits 10 den).length - 0 =
            (((Nat.digits 10 num.natAbs).length : Nat) : Int) -
              (Nat.digits 10 den).length from by omega]
        rw [zpow_nat_sub_le_div_iff _ _ _ _ hden]
        rw [mul_comm]
        exact hge
      have hhigh : (num.natAbs : Rat) / (den : Rat) <
          (10 : Rat) ^ (((Nat.digits 10 num.natAbs).length : Int) -
            (Nat.digits 10 den).length - 0 + 1) := by
        rw [show ((Nat.digits 10 num.natAbs).length : Int) -
            (Nat.digits 10 den).length - 0 + 1 =
            (((Nat.digits 10 num.natAbs).length + 1 : Nat) : Int) -
              (Nat.digits 10 den).length from by omega]
        rw [div_lt_zpow_nat_sub_iff _ _ _ _ hden]
        calc num.natAbs * 10 ^ (Nat.digits 10 den).length
            < 10 ^ (Nat.digits 10 num.natAbs).length * 10 ^ (Nat.digits 10 den).length :=
              (Nat.mul_lt_mul_right (pow_pos (by norm_num) _)).mpr hahi
          _ = 10 ^ ((Nat.digits 10 num.natAbs).length + 1) *
                10 ^ ((Nat.digits 10 den).length - 1) := by
              rw [← pow_add, ← pow_add]
              congr 1
              omega
          _ ≤ 10 ^ ((Nat.digits 10 num.natAbs).length + 1) * den :=
              Nat.mul_le_mul_left _ hdlo
      exact ⟨hlow, hhigh, fun e' h1 h2 => huniq e' _ h1 h2 hlow hhigh⟩

/-- C9: for every nonzero fraction x, the decade overload for fractions
returns the unique integer e with 10^e <= |x| < 10^(e+1), computed via
digit-count and trailing-zero-stripped lexicographic comparison of the
numerator and denominator digit strings, and it raises a ValueError on zero
input. -/
theorem decade_fraction_exact (num : Int) (den : Nat) (hden : 0 < den) :
    (num = 0 → decadeFraction num den = .error "decade input must be nonzero") ∧
    (num ≠ 0 → ∃ e : Int, decadeFraction num den = .ok e ∧
      (10 : Rat) ^ e ≤ |(num : Rat)| / (den : Rat) ∧
      |(num : Rat)| / (den : Rat) < (10 : Rat) ^ (e + 1) ∧
      (∀ e' : Int, (10 : Rat) ^ e' ≤ |(num : Rat)| / (den : Rat) →
        |(num : Rat)| / (den : Rat) < (10 : Rat) ^ (e' + 1) → e' = e)) :=
  decadeFraction_spec num den hden

/-- Witness for C9 at the fraction -9997/100, whose decade is 1. -/
theorem decade_fraction_exact_witness :
    decadeFraction (-9997) 100 = .ok 1 ∧
    (10 : Rat) ^ (1 : Int) ≤ |((-9997 : Int) : Rat)| / (100 : Rat) ∧
    |((-9997 : Int) : Rat)| / (100 : Rat) < (10 : Rat) ^ ((1 : Int) + 1) := by
  obtain ⟨e, hok, hlow, hhigh, -⟩ :=
    (decade_fraction_exact (-9997) 100 (by norm_num)).2 (by norm_num)
  have hval : decadeFraction (-9997) 100 = .ok 1 := by
    norm_num [decadeFraction, digitString, stripTrailingZeros, digitListLt]
  rw [hval] at hok
  have he : e = 1 := (Except.ok.inj hok).symm
  subst he
  exact ⟨hval, hlow, hhigh⟩


lemma div_mod_mul_decompose (nn dd M : Nat) (hd : 0 < dd) (hM : 0 < M) :
    nn / (dd * M) = nn / dd / M ∧
    nn % (dd * M) = (nn / dd % M) * dd + nn % dd := by
  have hq : dd * (nn / dd) + nn % dd = nn := Nat.div_add_mod nn dd
  have hA : M * (nn / dd / M) + (nn / dd) % M = nn / dd := Nat.div_add_mod (nn / dd) M
  have hrlt : nn % dd < dd := Nat.mod_lt _ hd
  have hBlt : nn / dd % M < M := Nat.mod_lt _ hM
  have hXlt : (nn / dd % M) * dd + nn % dd < dd * M := by
    calc (nn / dd % M) * dd + nn % dd
        < (nn / dd % M) * dd + dd := by omega
      _ = (nn / dd % M + 1) * dd := by ring
      _ ≤ M * dd := Nat.mul_le_mul_right dd (by omega)
      _ = dd * M := mul_comm M dd
  have key : nn = (dd * M) * (nn / dd / M) + ((nn / dd % M) * dd + nn % dd) := by
    conv_lhs => rw [← hq, ← hA]
    ring
  constructor
  · rw [Nat.div_div_eq_div_mul]
  · conv_lhs => rw [key]
    rw [add_comm, Nat.add_mul_mod_self_left, Nat.mod_eq_of_lt hXlt]

lemma exact_digit_components (nn dd k : Nat) (hd : 0 < dd) (hk : 1 ≤ k) :
    10 * (nn % (dd * 10 ^ k)) / (dd * 10 ^ k) = nn / dd % 10 ^ k / 10 ^ (k - 1) ∧
    (10 * (nn % (dd * 10 ^ k)) % (dd * 10 ^ k) = 0 ↔
      (nn / dd % 10 ^ k % 10 ^ (k - 1) = 0 ∧ nn % dd = 0)) := by
  have hT : 0 < 10 ^ (k - 1) := pow_pos (by norm_num) _
  have hM10 : (10 : Nat) ^ k = 10 * 10 ^ (k - 1) := by
    rw [← pow_succ']
    congr 1
    omega
  obtain ⟨-, hR⟩ := div_mod_mul_decompose nn dd (10 ^ k) hd (pow_pos (by norm_num) k)
  have hB : 10 ^ (k - 1) * (nn / dd % 10 ^ k / 10 ^ (k - 1)) + nn / dd % 10 ^ k % 10 ^ (k - 1)
      = nn / dd % 10 ^ k := Nat.div_add_mod _ _
  have hLlt : nn / dd % 10 ^ k % 10 ^ (k - 1) < 10 ^ (k - 1) := Nat.mod_lt _ hT
  have hrlt : nn % dd < dd := Nat.mod_lt _ hd
  have hRval : nn % (dd * 10 ^ k) =
      (dd * 10 ^ (k - 1)) * (nn / dd % 10 ^ k / 10 ^ (k - 1)) +
        ((nn / dd % 10 ^ k % 10 ^ (k - 1)) * dd + nn % dd) := by
    rw [hR]
    conv_lhs => rw [← hB]
    ring
  have hYlt : (nn / dd % 10 ^ k % 10 ^ (k - 1)) * dd + nn % dd < dd * 10 ^ (k - 1) := by
    calc (nn / dd % 10 ^ k % 10 ^ (k - 1)) * dd + nn % dd
        < (nn / dd % 10 ^ k % 10 ^ (k - 1)) * dd + dd := by omega
      _ = (nn / dd % 10 ^ k % 10 ^ (k - 1) + 1) * dd := by ring
      _ ≤ 10 ^ (k - 1) * dd := Nat.mul_le_mul_right dd (by omega)
      _ = dd * 10 ^ (k - 1) := mul_comm _ _
  have hdM : dd * 10 ^ k = 10 * (dd * 10 ^ (k - 1)) := by
    rw [hM10]
    ring
  constructor
  · rw [hRval, hdM, Nat.mul_div_mul_left _ _ (by norm_num : (0 : Nat) < 10)]
    rw [Nat.mul_add_div (by positivity), Nat.div_eq_of_lt hYlt, add_zero]
  · rw [hRval, hdM, Nat.mul_mod_mul_left]
    rw [add_comm, Nat.add_mul_mod_self_left, Nat.mod_eq_of_lt hYlt]
    constructor
    · intro h
      obtain ⟨Y, hY⟩ : ∃ Y, nn / dd % 10 ^ k % 10 ^ (k - 1) * dd = Y := ⟨_, rfl⟩
      rw [hY] at h
      have hY0 : Y = 0 ∧ nn % dd = 0 := by omega
      rw [← hY] at hY0
      refine ⟨?_, hY0.2⟩
      rcases Nat.mul_eq_zero.mp hY0.1 with h1 | h1
      · exact h1
      · omega
    · rintro ⟨hL, hr⟩
      rw [hL, hr]
      simp

lemma preround_kept_mod (nn dd k : Nat) (hd : 0 < dd) (hk : 1 ≤ k) :
    (nn / dd + (if nn % dd ≠ 0 ∧ (nn / dd) % 5 = 0 then 1 else 0)) / 10 ^ k
        = nn / dd / 10 ^ k ∧
    (nn / dd + (if nn % dd ≠ 0 ∧ (nn / dd) % 5 = 0 then 1 else 0)) % 10 ^ k
        = nn / dd % 10 ^ k + (if nn % dd ≠ 0 ∧ (nn / dd) % 5 = 0 then 1 else 0) := by
  have hMpos : 0 < (10 : Nat) ^ k := pow_pos (by norm_num) k
  split_ifs with hb
  · obtain ⟨hr, hq5⟩ := hb
    have hAB : 10 ^ k * (nn / dd / 10 ^ k) + nn / dd % 10 ^ k = nn / dd := Nat.div_add_mod _ _
    have hBlt : nn / dd % 10 ^ k < 10 ^ k := Nat.mod_lt _ hMpos
    have h5M : 10 ^ k % 5 = 0 := by
      have : (5 : Nat) ∣ 10 ^ k := dvd_pow (by norm_num) (by omega)
      omega
    obtain ⟨X, hX⟩ : ∃ X, 10 ^ k * (nn / dd / 10 ^ k) = X := ⟨_, rfl⟩
    have hX5 : X % 5 = 0 := by
      rw [← hX]
      have : (5 : Nat) ∣ 10 ^ k * (nn / dd / 10 ^ k) :=
        Dvd.dvd.mul_right (dvd_pow (by norm_num) (by omega)) _
      omega
    rw [hX] at hAB
    have hB5 : nn / dd % 10 ^ k % 5 = 0 := by omega
    have hBsucc : nn / dd % 10 ^ k + 1 < 10 ^ k := by omega
    have hsum : nn / dd + 1 = X + (nn / dd % 10 ^ k + 1) := by omega
    constructor
    · rw [hsum, ← hX, Nat.mul_add_div hMpos, Nat.div_eq_of_lt hBsucc, add_zero]
    · rw [hsum, ← hX, add_comm, Nat.add_mul_mod_self_left, Nat.mod_eq_of_lt hBsucc]
  · simp

lemma preround_digit_eq (nn dd k : Nat) (hd : 0 < dd) (hk : 1 ≤ k) :
    digitOf ((nn / dd + (if nn % dd ≠ 0 ∧ (nn / dd) % 5 = 0 then 1 else 0)) % 10 ^ k)
        (10 ^ (k - 1)) =
      10 * (nn % (dd * 10 ^ k)) / (dd * 10 ^ k) +
        (if 10 * (nn % (dd * 10 ^ k)) % (dd * 10 ^ k) ≠ 0 ∧
            (10 * (nn % (dd * 10 ^ k)) / (dd * 10 ^ k) = 0 ∨
             10 * (nn % (dd * 10 ^ k)) / (dd * 10 ^ k) = 5) then 1 else 0) := by
  have hMpos : 0 < (10 : Nat) ^ k := pow_pos (by norm_num) k
  have hTpos : 0 < (10 : Nat) ^ (k - 1) := pow_pos (by norm_num) _
  obtain ⟨hc, htr⟩ := exact_digit_components nn dd k hd hk
  rw [hc]
  simp only [ne_eq, htr]
  rw [(preround_kept_mod nn dd k hd hk).2]
  -- abbreviations: q = nn / dd, r = nn % dd, B = q % 10^k, c = B / 10^(k-1), L = B % 10^(k-1)
  have hB : 10 ^ (k - 1) * (nn / dd % 10 ^ k / 10 ^ (k - 1)) + nn / dd % 10 ^ k % 10 ^ (k - 1)
      = nn / dd % 10 ^ k := Nat.div_add_mod _ _
  have hLlt : nn / dd % 10 ^ k % 10 ^ (k - 1) < 10 ^ (k - 1) := Nat.mod_lt _ hTpos
  have hBlt : nn / dd % 10 ^ k < 10 ^ k := Nat.mod_lt _ hMpos
  have h5M : 10 ^ k % 5 = 0 := by
    have : (5 : Nat) ∣ 10 ^ k := dvd_pow (by norm_num) (by omega)
    omega
  have hABq : 10 ^ k * (nn / dd / 10 ^ k) + nn / dd % 10 ^ k = nn / dd := Nat.div_add_mod _ _
  obtain ⟨X, hX⟩ : ∃ X, 10 ^ k * (nn / dd / 10 ^ k) = X := ⟨_, rfl⟩
  rw [hX] at hABq
  have hX5 : X % 5 = 0 := by
    rw [← hX]
    have : (5 : Nat) ∣ 10 ^ k * (nn / dd / 10 ^ k) :=
      Dvd.dvd.mul_right (dvd_pow (by norm_num) (by omega)) _
    omega
  obtain ⟨Y, hY⟩ : ∃ Y, 10 ^ (k - 1) * (nn / dd % 10 ^ k / 10 ^ (k - 1)) = Y := ⟨_, rfl⟩
  rw [hY] at hB
  -- the mod-5 bridge: if the rounding digit is 0 or 5 and there are no further
  -- digits below it, then the whole kept significand is a multiple of 5
  have hkey : (nn / dd % 10 ^ k / 10 ^ (k - 1) = 0 ∨ nn / dd % 10 ^ k / 10 ^ (k - 1) = 5) →
      nn / dd % 10 ^ k % 10 ^ (k - 1) = 0 → nn / dd % 5 = 0 := by
    intro hc05 hL0
    have hY5 : Y % 5 = 0 := by
      rw [← hY]
      rcases hc05 with h0 | h5
      · rw [h0]
        simp
      · rw [h5]
        have : (5 : Nat) ∣ 10 ^ (k - 1) * 5 := Dvd.dvd.mul_left (by norm_num) _
        omega
    omega
  by_cases hb : nn % dd ≠ 0 ∧ (nn / dd) % 5 = 0
  · rw [if_pos hb]
    obtain ⟨hr, hq5⟩ := hb
    have hB5 : nn / dd % 10 ^ k % 5 = 0 := by omega
    rcases Nat.lt_or_ge k 2 with hk1 | hk2
    · have hke : k = 1 := by omega
      subst hke
      have hT1 : (10 : Nat) ^ (1 - 1) = 1 := by norm_num
      have hM1 : (10 : Nat) ^ 1 = 10 := by norm_num
      rw [hM1] at hBlt hB5
      rw [hM1, hT1]
      unfold digitOf
      simp only [Nat.div_one, Nat.mod_one]
      split_ifs with h1 h2 h2 <;> omega
    · have h5T : 10 ^ (k - 1) % 5 = 0 := by
        have : (5 : Nat) ∣ 10 ^ (k - 1) := dvd_pow (by norm_num) (by omega)
        omega
      have hY5 : Y % 5 = 0 := by
        rw [← hY]
        have : (5 : Nat) ∣ 10 ^ (k - 1) * (nn / dd % 10 ^ k / 10 ^ (k - 1)) :=
          Dvd.dvd.mul_right (dvd_pow (by norm_num) (by omega)) _
        omega
      have hL5 : nn / dd % 10 ^ k % 10 ^ (k - 1) % 5 = 0 := by omega
      have hLsucc : nn / dd % 10 ^ k % 10 ^ (k - 1) + 1 < 10 ^ (k - 1) := by omega
      have hq1 : nn / dd % 10 ^ k + 1 = Y + (nn / dd % 10 ^ k % 10 ^ (k - 1) + 1) := by omega
      unfold digitOf
      rw [hq1, ← hY, Nat.mul_add_div hTpos, Nat.div_eq_of_lt hLsucc, add_zero,
        add_comm (10 ^ (k - 1) * (nn / dd % 10 ^ k / 10 ^ (k - 1))),
        Nat.add_mul_mod_self_left, Nat.mod_eq_of_lt hLsucc]
      split_ifs with h1 h2 h2 <;> omega
  · rw [if_neg hb, add_zero]
    unfold digitOf
    split_ifs with h1 h2 h2 <;> omega

lemma scaledPair_snd_pos (n d : Nat) (hd : 0 < d) (e : Int) : 0 < (scaledPair n d e).2 := by
  unfold scaledPair
  split_ifs <;> simp <;> positivity

lemma fromSignedFraction_some_eq (sign a den : Nat) (hden : 0 < den) (E : Int) :
    IntermediateForm.fromSignedFraction sign (a : Int) (den : Int) (some E) =
      .ok ⟨sign,
        (scaledPair a den E).1 / (scaledPair a den E).2 +
          (if (scaledPair a den E).1 % (scaledPair a den E).2 ≠ 0 ∧
              (scaledPair a den E).1 / (scaledPair a den E).2 % 5 = 0 then 1 else 0),
        E⟩ := by
  simp only [IntermediateForm.fromSignedFraction]
  rw [if_neg (by push_neg; exact ⟨Int.natCast_nonneg a, Int.natCast_pos.mpr hden⟩)]
  simp only [Int.toNat_natCast]

lemma roundExactFraction_eq (sign n d : Nat) (exp : Int) (mode : RoundingMode) :
    roundExactFraction sign n d exp mode =
      ⟨sign,
        mode.round sign ((scaledPair n d exp).1 / (scaledPair n d exp).2)
          (10 * ((scaledPair n d exp).1 % (scaledPair n d exp).2) / (scaledPair n d exp).2 +
            (if 10 * ((scaledPair n d exp).1 % (scaledPair n d exp).2) % (scaledPair n d exp).2 ≠ 0 ∧
                (10 * ((scaledPair n d exp).1 % (scaledPair n d exp).2) / (scaledPair n d exp).2 = 0 ∨
                 10 * ((scaledPair n d exp).1 % (scaledPair n d exp).2) / (scaledPair n d exp).2 = 5)
              then 1 else 0)),
        exp⟩ := rfl

lemma exact_components_scale (N D c : Nat) (hc : 0 < c) :
    (N * c) / (D * c) = N / D ∧
    10 * ((N * c) % (D * c)) / (D * c) = 10 * (N % D) / D ∧
    (10 * ((N * c) % (D * c)) % (D * c) = 0 ↔ 10 * (N % D) % D = 0) := by
  refine ⟨Nat.mul_div_mul_right N D hc, ?_, ?_⟩
  · rw [Nat.mul_mod_mul_right, show 10 * (N % D * c) = 10 * (N % D) * c from by ring,
      Nat.mul_div_mul_right _ _ hc]
  · rw [Nat.mul_mod_mul_right, show 10 * (N % D * c) = 10 * (N % D) * c from by ring,
      Nat.mul_mod_mul_right]
    constructor
    · intro h
      rcases Nat.mul_eq_zero.mp h with h1 | h1
      · exact h1
      · omega
    · intro h
      rw [h]
      simp

lemma scaledPair_shift (n d : Nat) (E e2 : Int) (h : E < e2) :
    ∃ c, 0 < c ∧ (scaledPair n d e2).1 * c = (scaledPair n d E).1 ∧
      (scaledPair n d e2).2 * c = (scaledPair n d E).2 * 10 ^ (e2 - E).toNat := by
  unfold scaledPair
  rcases Decidable.em (e2 ≤ 0) with h2 | h2
  · rw [if_pos h2, if_pos (by omega)]
    refine ⟨10 ^ (e2 - E).toNat, pow_pos (by norm_num) _, ?_, ?_⟩
    · simp only
      rw [mul_assoc, ← pow_add]
      congr 2
      omega
    · simp
  · rcases Decidable.em (E ≤ 0) with h1 | h1
    · rw [if_neg h2, if_pos h1]
      refine ⟨10 ^ (-E).toNat, pow_pos (by norm_num) _, rfl, ?_⟩
      simp only
      rw [mul_assoc, ← pow_add]
      congr 2
      omega
    · rw [if_neg h2, if_neg h1]
      refine ⟨1, one_pos, by simp, ?_⟩
      simp only [mul_one]
      rw [mul_assoc, ← pow_add]
      congr 2
      omega

lemma round_eq_of_lt' (sg s : Nat) (E e : Int) (m : RoundingMode) (hlt : E < e)
    (k : Nat) (hk : e - E = (k : Int)) :
    IntermediateForm.round ⟨sg, s, E⟩ e m =
      ⟨sg, m.round sg (s / 10 ^ k) (digitOf (s % 10 ^ k) (10 ^ (k - 1))), e⟩ :=
  round_eq_of_lt ⟨sg, s, E⟩ e m hlt k hk

/-- C1: for every signed fraction x (numerator and denominator coprime,
denominator positive) and every pair of exponents e1 <= e2 and each of the 13
rounding modes, rounding the pre-rounded value preround(x, e1) to exponent e2
with that mode yields the same IntermediateForm as rounding the exact
fraction x directly to exponent e2 with that mode. -/
theorem preround_round_eq_exact_round (num : Int) (den : Nat) (e1 e2 : Int)
    (mode : RoundingMode) (hden : 0 < den) (hcop : num.natAbs.Coprime den)
    (h12 : e1 ≤ e2) :
    ∃ p, preroundFraction num den (some e1) = .ok p ∧
      p.round e2 mode =
        roundExactFraction (if num < 0 then 1 else 0) num.natAbs den e2 mode := by
  have hE2 : e1 - 1 < e2 := by omega
  obtain ⟨k, hk⟩ : ∃ k : Nat, e2 - (e1 - 1) = (k : Int) := ⟨(e2 - (e1 - 1)).toNat, by omega⟩
  have hk1 : 1 ≤ k := by omega
  have hD' : 0 < (scaledPair num.natAbs den (e1 - 1)).2 := scaledPair_snd_pos _ _ hden _
  obtain ⟨c, hc, hc1, hc2⟩ := scaledPair_shift num.natAbs den (e1 - 1) e2 hE2
  rw [show (e2 - (e1 - 1)).toNat = k from by omega] at hc2
  obtain ⟨hs1, hs2, hs3⟩ :=
    exact_components_scale (scaledPair num.natAbs den e2).1 (scaledPair num.natAbs den e2).2 c hc
  refine ⟨⟨(if num < 0 then 1 else 0),
      (scaledPair num.natAbs den (e1 - 1)).1 / (scaledPair num.natAbs den (e1 - 1)).2 +
        (if (scaledPair num.natAbs den (e1 - 1)).1 % (scaledPair num.natAbs den (e1 - 1)).2 ≠ 0 ∧
            (scaledPair num.natAbs den (e1 - 1)).1 / (scaledPair num.natAbs den (e1 - 1)).2 % 5 = 0
          then 1 else 0),
      e1 - 1⟩, ?_, ?_⟩
  · unfold preroundFraction
    exact fromSignedFraction_some_eq _ num.natAbs den hden (e1 - 1)
  · rw [round_eq_of_lt' _ _ _ e2 mode hE2 k (by omega)]
    rw [roundExactFraction_eq]
    simp only [IntermediateForm.mk.injEq, true_and, and_true]
    have hkept : ((scaledPair num.natAbs den (e1 - 1)).1 / (scaledPair num.natAbs den (e1 - 1)).2 +
        (if (scaledPair num.natAbs den (e1 - 1)).1 % (scaledPair num.natAbs den (e1 - 1)).2 ≠ 0 ∧
            (scaledPair num.natAbs den (e1 - 1)).1 / (scaledPair num.natAbs den (e1 - 1)).2 % 5 = 0
          then 1 else 0)) / 10 ^ k =
        (scaledPair num.natAbs den e2).1 / (scaledPair num.natAbs den e2).2 := by
      rw [(preround_kept_mod _ _ k hD' hk1).1, Nat.div_div_eq_div_mul, ← hc1, ← hc2]
      exact hs1
    have hdig : digitOf (((scaledPair num.natAbs den (e1 - 1)).1 /
          (scaledPair num.natAbs den (e1 - 1)).2 +
        (if (scaledPair num.natAbs den (e1 - 1)).1 % (scaledPair num.natAbs den (e1 - 1)).2 ≠ 0 ∧
            (scaledPair num.natAbs den (e1 - 1)).1 / (scaledPair num.natAbs den (e1 - 1)).2 % 5 = 0
          then 1 else 0)) % 10 ^ k) (10 ^ (k - 1)) =
        10 * ((scaledPair num.natAbs den e2).1 % (scaledPair num.natAbs den e2).2) /
            (scaledPair num.natAbs den e2).2 +
          (if 10 * ((scaledPair num.natAbs den e2).1 % (scaledPair num.natAbs den e2).2) %
                (scaledPair num.natAbs den e2).2 ≠ 0 ∧
              (10 * ((scaledPair num.natAbs den e2).1 % (scaledPair num.natAbs den e2).2) /
                  (scaledPair num.natAbs den e2).2 = 0 ∨
               10 * ((scaledPair num.natAbs den e2).1 % (scaledPair num.natAbs den e2).2) /
                  (scaledPair num.natAbs den e2).2 = 5)
            then 1 else 0) := by
      rw [preround_digit_eq _ _ k hD' hk1, ← hc1, ← hc2]
      simp only [ne_eq, hs2, hs3]
    rw [hkept, hdig]

/-- Witness for C1 at x = 1/3, e1 = -2, e2 = 0, ties-to-even. -/
theorem preround_round_eq_exact_round_witness :
    ∃ p, preroundFraction 1 3 (some (-2)) = .ok p ∧
      p.round 0 .TIES_TO_EVEN =
        roundExactFraction (if (1 : Int) < 0 then 1 else 0) (1 : Int).natAbs 3 0
          .TIES_TO_EVEN :=
  preround_round_eq_exact_round 1 3 (-2) 0 .TIES_TO_EVEN (by norm_num) (by decide)
    (by norm_num)

end Rounders

namespace Rounders

lemma scaledPair_fst_pos (n d : Nat) (hn : 0 < n) (e : Int) : 0 < (scaledPair n d e).1 := by
  unfold scaledPair
  split_ifs <;> simp <;> positivity

lemma scaledPair_value (n d : Nat) (hd : 0 < d) (E : Int) :
    ((scaledPair n d E).1 : Rat) / ((scaledPair n d E).2 : Rat) =
      (n : Rat) / (d : Rat) * (10 : Rat) ^ (-E) := by
  unfold scaledPair
  split_ifs with h
  · simp only
    push_cast
    rw [show ((10 : Rat) ^ (-E)) = (10 : Rat) ^ ((-E).toNat) from by
      rw [← zpow_natCast]
      congr 1
      omega]
    ring
  · simp only
    push_cast
    rw [show ((10 : Rat) ^ (-E)) = ((10 : Rat) ^ (E.toNat))⁻¹ from by
      rw [← zpow_natCast, ← zpow_neg]
      congr 1
      omega]
    have h10 : ((10 : Rat) ^ E.toNat) ≠ 0 := by positivity
    have hdq : (d : Rat) ≠ 0 := by positivity
    field_simp

lemma preround_significand_pos (a den : Nat) (E : Int) (ha : 0 < a) (hden : 0 < den) :
    0 < (scaledPair a den E).1 / (scaledPair a den E).2 +
      (if (scaledPair a den E).1 % (scaledPair a den E).2 ≠ 0 ∧
          (scaledPair a den E).1 / (scaledPair a den E).2 % 5 = 0 then 1 else 0) := by
  have hN : 0 < (scaledPair a den E).1 := scaledPair_fst_pos a den ha E
  have hD : 0 < (scaledPair a den E).2 := scaledPair_snd_pos a den hden E
  have hdm : (scaledPair a den E).2 * ((scaledPair a den E).1 / (scaledPair a den E).2) +
      (scaledPair a den E).1 % (scaledPair a den E).2 = (scaledPair a den E).1 :=
    Nat.div_add_mod _ _
  by_cases hq : (scaledPair a den E).1 / (scaledPair a den E).2 = 0
  · have hr : (scaledPair a den E).1 % (scaledPair a den E).2 ≠ 0 := by
      intro h0
      rw [hq, Nat.mul_zero, zero_add] at hdm
      omega
    rw [if_pos ⟨hr, by rw [hq]⟩]
    omega
  · have hpos : 0 < (scaledPair a den E).1 / (scaledPair a den E).2 := Nat.pos_of_ne_zero hq
    split_ifs <;> omega

lemma digits_length_eq (s g : Nat) (h1 : 10 ^ g ≤ s) (h2 : s < 10 ^ (g + 1)) :
    (Nat.digits 10 s).length = g + 1 := by
  have hs : s ≠ 0 := by
    have : 0 < 10 ^ g := pow_pos (by norm_num) g
    omega
  rw [Nat.digits_len 10 s (by norm_num) hs, Nat.log_eq_of_pow_le_of_lt_pow h1 h2]

lemma digits_length_le (s g : Nat) (h2 : s < 10 ^ g) : (Nat.digits 10 s).length ≤ g := by
  rcases Decidable.em (s = 0) with h | h
  · simp [h]
  · rw [Nat.digits_len 10 s (by norm_num) h]
    have := Nat.log_lt_of_lt_pow h h2
    omega

lemma preround_significand_bounds (a den : Nat) (E D : Int) (ha : 0 < a) (hden : 0 < den)
    (hED : E ≤ D)
    (hD1 : (10 : Rat) ^ D ≤ (a : Rat) / den) (hD2 : (a : Rat) / den < (10 : Rat) ^ (D + 1)) :
    10 ^ (D - E).toNat ≤ (scaledPair a den E).1 / (scaledPair a den E).2 +
        (if (scaledPair a den E).1 % (scaledPair a den E).2 ≠ 0 ∧
            (scaledPair a den E).1 / (scaledPair a den E).2 % 5 = 0 then 1 else 0) ∧
      (scaledPair a den E).1 / (scaledPair a den E).2 +
        (if (scaledPair a den E).1 % (scaledPair a den E).2 ≠ 0 ∧
            (scaledPair a den E).1 / (scaledPair a den E).2 % 5 = 0 then 1 else 0) <
        10 ^ ((D - E).toNat + 1) := by
  have hD' : 0 < (scaledPair a den E).2 := scaledPair_snd_pos a den hden E
  have hval := scaledPair_value a den hden E
  -- rational bounds on the scaled value
  have hv1 : ((10 : Rat) ^ ((D - E).toNat : Nat) : Rat) ≤
      ((scaledPair a den E).1 : Rat) / ((scaledPair a den E).2 : Rat) := by
    rw [hval]
    have : (10 : Rat) ^ ((D - E).toNat : Nat) = (10 : Rat) ^ (D + -E) := by
      rw [← zpow_natCast]
      congr 1
      omega
    rw [this, zpow_add₀ (by norm_num : (10 : Rat) ≠ 0)]
    have hpos : (0 : Rat) < (10 : Rat) ^ (-E) := zpow_pos (by norm_num) _
    exact mul_le_mul_of_nonneg_right hD1 (le_of_lt hpos)
  have hv2 : ((scaledPair a den E).1 : Rat) / ((scaledPair a den E).2 : Rat) <
      (10 : Rat) ^ (((D - E).toNat + 1 : Nat)) := by
    rw [hval]
    have : ((10 : Rat) ^ (((D - E).toNat + 1 : Nat))) = (10 : Rat) ^ ((D + 1) + -E) := by
      rw [← zpow_natCast]
      congr 1
      omega
    rw [this, zpow_add₀ (by norm_num : (10 : Rat) ≠ 0)]
    have hpos : (0 : Rat) < (10 : Rat) ^ (-E) := zpow_pos (by norm_num) _
    exact mul_lt_mul_of_pos_right hD2 hpos
  -- convert to natural-number bounds
  have hn1 : 10 ^ (D - E).toNat * (scaledPair a den E).2 ≤ (scaledPair a den E).1 := by
    rw [le_div_iff₀ (by positivity : (0 : Rat) < ((scaledPair a den E).2 : Rat))] at hv1
    exact_mod_cast hv1
  have hn2 : (scaledPair a den E).1 < 10 ^ ((D - E).toNat + 1) * (scaledPair a den E).2 := by
    rw [div_lt_iff₀ (by positivity : (0 : Rat) < ((scaledPair a den E).2 : Rat))] at hv2
    exact_mod_cast hv2
  have hq1 : 10 ^ (D - E).toNat ≤ (scaledPair a den E).1 / (scaledPair a den E).2 :=
    (Nat.le_div_iff_mul_le hD').mpr hn1
  have hq2 : (scaledPair a den E).1 / (scaledPair a den E).2 < 10 ^ ((D - E).toNat + 1) :=
    (Nat.div_lt_iff_lt_mul hD').mpr hn2
  have h5 : 10 ^ ((D - E).toNat + 1) % 5 = 0 := by
    have : (5 : Nat) ∣ 10 ^ ((D - E).toNat + 1) := dvd_pow (by norm_num) (by omega)
    omega
  split_ifs with hb
  · exact ⟨by omega, by omega⟩
  · exact ⟨by omega, by omega⟩

end Rounders


namespace Rounders

lemma abs_ratCast_int (num : Int) : |(num : Rat)| = (num.natAbs : Rat) := by
  rw [Int.cast_natAbs, Int.cast_abs]

/-- C2 (amended): for every finite nonzero value x and every target exponent e,
the pre-rounded value preround(x, e) is nonzero; and whenever
e <= decade(x) + 1 it has the same decade as x, so that recomputing the
target exponent from the pre-rounded value's decade is safe in that range. -/
theorem preround_nonzero_and_decade (num : Int) (den : Nat) (e : Int)
    (hnum : num ≠ 0) (hden : 0 < den) :
    ∃ p, preroundFraction num den (some e) = .ok p ∧
      p.significand ≠ 0 ∧
      ∀ D : Int, decadeFraction num den = .ok D → e ≤ D + 1 → p.decadeE = .ok D := by
  have ha : 0 < num.natAbs := Int.natAbs_pos.mpr hnum
  refine ⟨⟨(if num < 0 then 1 else 0),
      (scaledPair num.natAbs den (e - 1)).1 / (scaledPair num.natAbs den (e - 1)).2 +
        (if (scaledPair num.natAbs den (e - 1)).1 % (scaledPair num.natAbs den (e - 1)).2 ≠ 0 ∧
            (scaledPair num.natAbs den (e - 1)).1 / (scaledPair num.natAbs den (e - 1)).2 % 5 = 0
          then 1 else 0),
      e - 1⟩, ?_, ?_, ?_⟩
  · unfold preroundFraction
    exact fromSignedFraction_some_eq _ num.natAbs den hden (e - 1)
  · exact Nat.pos_iff_ne_zero.mp (preround_significand_pos num.natAbs den (e - 1) ha hden)
  · intro D hD hle
    obtain ⟨e', hok, h1, h2, -⟩ := (decadeFraction_spec num den hden).2 hnum
    rw [hD] at hok
    have hDe : D = e' := Except.ok.inj hok
    subst hDe
    rw [abs_ratCast_int] at h1 h2
    obtain ⟨hb1, hb2⟩ := preround_significand_bounds num.natAbs den (e - 1) D ha hden
      (by omega) h1 h2
    have hne : (scaledPair num.natAbs den (e - 1)).1 / (scaledPair num.natAbs den (e - 1)).2 +
        (if (scaledPair num.natAbs den (e - 1)).1 % (scaledPair num.natAbs den (e - 1)).2 ≠ 0 ∧
            (scaledPair num.natAbs den (e - 1)).1 /
              (scaledPair num.natAbs den (e - 1)).2 % 5 = 0 then 1 else 0) ≠ 0 :=
      Nat.pos_iff_ne_zero.mp (preround_significand_pos num.natAbs den (e - 1) ha hden)
    show IntermediateForm.decadeE _ = _
    rw [IntermediateForm.decadeE, IntermediateForm.figures]
    simp only
    rw [if_neg hne, if_neg hne, digits_length_eq _ _ hb1 hb2]
    congr 1
    omega

/-- C2 counterexample: the claim as stated fails.  With a target format whose
minimum exponent is 5, round_for_format pre-rounds x = 1 (decade 0) at the
target exponent 5 chosen by minimum_exponent_for_decade, and the pre-rounded
value 1e4 lies in decade 4, not decade 0. -/
theorem preround_decade_counterexample :
    (TargetFormat.mk (some 5) none true).minimumExponentForDecade 0 = some 5 ∧
    decadeFraction 1 1 = .ok 0 ∧
    preroundFraction 1 1 (some 5) = .ok ⟨0, 1, 4⟩ ∧
    (IntermediateForm.mk 0 1 4).decadeE = .ok 4 ∧
    (4 : Int) ≠ 0 := by
  refine ⟨rfl, ?_, ?_, ?_, by norm_num⟩
  · norm_num [decadeFraction, digitString, stripTrailingZeros, digitListLt]
  · rfl
  · norm_num [IntermediateForm.decadeE, IntermediateForm.figures]

/-- Witness for C2 (amended) at x = 9997/100, e = 0 <= decade + 1 = 2. -/
theorem preround_nonzero_and_decade_witness :
    ∃ p, preroundFraction 9997 100 (some 0) = .ok p ∧
      p.significand ≠ 0 ∧
      ∀ D : Int, decadeFraction 9997 100 = .ok D → 0 ≤ D + 1 → p.decadeE = .ok D :=
  preround_nonzero_and_decade 9997 100 0 (by norm_num) (by norm_num)

end Rounders

namespace Rounders

lemma roundToFiguresIntermediate_finite (q : Rat) (figures : Int) (mode : RoundingMode)
    (hq : q ≠ 0) (D : Int) (p : IntermediateForm)
    (hdec : decadeFraction q.num q.den = .ok D)
    (hpre : preroundFraction q.num q.den (some (D + 1 - figures)) = .ok p)
    (hpd : p.decadeE = .ok D) :
    roundToFiguresIntermediate (.finite q) figures mode =
      (p.round (D + 1 - figures) mode).nudge figures := by
  unfold roundToFiguresIntermediate
  simp only [GenericValue.isZero, hq, decide_eq_true_eq, GenericValue.decadeE, hdec,
    GenericValue.preround, Bool.false_eq_true, if_false, ite_false]
  show (do
      let prerounded ← preroundFraction q.num q.den (some (D + 1 - figures))
      let y ← prerounded.decadeE
      (prerounded.round (y + 1 - figures) mode).nudge figures :
        Except String IntermediateForm) = _
  rw [hpre]
  show (do
      let y ← p.decadeE
      (p.round (y + 1 - figures) mode).nudge figures : Except String IntermediateForm) = _
  rw [hpd]
  rfl

end Rounders

namespace Rounders

lemma roundToFigures_finite_ok (q : Rat) (figures : Int) (mode : RoundingMode)
    (hf : 0 < figures) (r : IntermediateForm)
    (hok : roundToFiguresIntermediate (.finite q) figures mode = .ok r) :
    roundToFigures (.finite q) figures mode = .ok (.finite (toTypeOfFraction r)) := by
  unfold roundToFigures
  rw [if_neg (by omega), if_neg (by simp [GenericValue.isFinite])]
  show (do
      let rounded ← roundToFiguresIntermediate (.finite q) figures mode
      (GenericValue.finite q).toTypeOf rounded : Except String GenericValue) = _
  rw [hok]
  rfl

/-- C5: for every finite nonzero value x, every positive figures count and
every rounding mode, round_to_figures succeeds and its result has at most
`figures` significant digits: the nudge step removes the single trailing zero
produced when rounding crosses into the next decade, and never raises. -/
theorem round_to_figures_at_most_figures (q : Rat) (figures : Int)
    (mode : RoundingMode) (hq : q ≠ 0) (hfig : 0 < figures) :
    ∃ r, roundToFiguresIntermediate (.finite q) figures mode = .ok r ∧
      (r.figures : Int) ≤ figures ∧
      roundToFigures (.finite q) figures mode = .ok (.finite (toTypeOfFraction r)) := by
  have hden : 0 < q.den := q.den_pos
  have hnum : q.num ≠ 0 := Rat.num_ne_zero.mpr hq
  have ha : 0 < q.num.natAbs := Int.natAbs_pos.mpr hnum
  obtain ⟨D, hdec, h1, h2, -⟩ := (decadeFraction_spec q.num q.den hden).2 hnum
  rw [abs_ratCast_int] at h1 h2
  have hpre : preroundFraction q.num q.den (some (D + 1 - figures)) = .ok
      ⟨(if q.num < 0 then 1 else 0),
        (scaledPair q.num.natAbs q.den (D + 1 - figures - 1)).1 /
            (scaledPair q.num.natAbs q.den (D + 1 - figures - 1)).2 +
          (if (scaledPair q.num.natAbs q.den (D + 1 - figures - 1)).1 %
                (scaledPair q.num.natAbs q.den (D + 1 - figures - 1)).2 ≠ 0 ∧
              (scaledPair q.num.natAbs q.den (D + 1 - figures - 1)).1 /
                (scaledPair q.num.natAbs q.den (D + 1 - figures - 1)).2 % 5 = 0
            then 1 else 0),
        D + 1 - figures - 1⟩ := by
    unfold preroundFraction
    exact fromSignedFraction_some_eq _ q.num.natAbs q.den hden (D + 1 - figures - 1)
  obtain ⟨hb1, hb2⟩ := preround_significand_bounds q.num.natAbs q.den (D + 1 - figures - 1) D
    ha hden (by omega) h1 h2
  rw [show (D - (D + 1 - figures - 1)).toNat = figures.toNat from by omega] at hb1 hb2
  obtain ⟨s, hsEq⟩ : ∃ s, (scaledPair q.num.natAbs q.den (D + 1 - figures - 1)).1 /
      (scaledPair q.num.natAbs q.den (D + 1 - figures - 1)).2 +
      (if (scaledPair q.num.natAbs q.den (D + 1 - figures - 1)).1 %
            (scaledPair q.num.natAbs q.den (D + 1 - figures - 1)).2 ≠ 0 ∧
          (scaledPair q.num.natAbs q.den (D + 1 - figures - 1)).1 /
            (scaledPair q.num.natAbs q.den (D + 1 - figures - 1)).2 % 5 = 0
        then 1 else 0) = s := ⟨_, rfl⟩
  rw [hsEq] at hpre hb1 hb2
  obtain ⟨sg, hsgEq⟩ : ∃ sg : Nat, (if q.num < 0 then (1 : Nat) else 0) = sg := ⟨_, rfl⟩
  rw [hsgEq] at hpre
  obtain ⟨g, hg⟩ : ∃ g : Nat, figures.toNat = g := ⟨_, rfl⟩
  rw [hg] at hb1 hb2
  have hgfig : (g : Int) = figures := by omega
  have hg1 : 1 ≤ g := by omega
  have h10g : 0 < 10 ^ g := pow_pos (by norm_num) g
  have hsne : s ≠ 0 := by
    have h10g' : 0 < 10 ^ g := h10g
    omega
  have hpd : (IntermediateForm.mk sg s (D + 1 - figures - 1)).decadeE = .ok D := by
    rw [IntermediateForm.decadeE, IntermediateForm.figures]
    simp only
    rw [if_neg hsne, if_neg hsne, digits_length_eq s g hb1 hb2]
    congr 1
    omega
  have hchain := roundToFiguresIntermediate_finite q figures mode hq D _ hdec hpre hpd
  have hround : IntermediateForm.round ⟨sg, s, D + 1 - figures - 1⟩ (D + 1 - figures) mode =
      ⟨sg, mode.round sg (s / 10) (s % 10), D + 1 - figures⟩ := by
    rw [round_eq_of_lt' sg s (D + 1 - figures - 1) (D + 1 - figures) mode (by omega) 1
      (by omega)]
    simp [digitOf, Nat.mod_one]
  rw [hround] at hchain
  obtain ⟨v, hv⟩ : ∃ v, mode.round sg (s / 10) (s % 10) = v := ⟨_, rfl⟩
  rw [hv] at hchain
  have hk1 : 10 ^ (g - 1) ≤ s / 10 := by
    rw [Nat.le_div_iff_mul_le (by norm_num)]
    calc 10 ^ (g - 1) * 10 = 10 ^ g := by
          rw [← pow_succ]
          congr 1
          omega
      _ ≤ s := hb1
  have hk2 : s / 10 < 10 ^ g := by
    rw [Nat.div_lt_iff_lt_mul (by norm_num)]
    calc s < 10 ^ (g + 1) := hb2
      _ = 10 ^ g * 10 := pow_succ 10 g
  have hsel := round_eq_self_or_succ mode sg (s / 10) (s % 10)
  rw [hv] at hsel
  have hvle : v ≤ 10 ^ g := by omega
  rcases Nat.lt_or_ge v (10 ^ g) with hlt | hge
  · -- no decade overflow: nudge returns the value unchanged
    have hfl : ((IntermediateForm.mk sg v (D + 1 - figures)).figures : Int) ≤ figures := by
      rw [IntermediateForm.figures]
      simp only
      split_ifs
      · omega
      · have := digits_length_le v g hlt
        omega
    have hok : roundToFiguresIntermediate (.finite q) figures mode =
        .ok ⟨sg, v, D + 1 - figures⟩ := by
      rw [hchain, IntermediateForm.nudge, if_pos hfl]
    exact ⟨_, hok, hfl, roundToFigures_finite_ok q figures mode hfig _ hok⟩
  · -- decade overflow: the extra digit is a zero, and nudge drops it
    have hveq : v = 10 ^ g := by omega
    have hfig1 : (IntermediateForm.mk sg v (D + 1 - figures)).figures = g + 1 := by
      rw [IntermediateForm.figures]
      simp only
      rw [if_neg (by omega), hveq,
        digits_length_eq _ g le_rfl (Nat.pow_lt_pow_right (by norm_num) (Nat.lt_succ_self g))]
    have hsplit : (10 : Nat) ^ g = 10 ^ (g - 1) * 10 := by
      rw [← pow_succ]
      congr 1
      omega
    have htenths : v % 10 = 0 := by
      rw [hveq, hsplit]
      exact Nat.mul_mod_left _ _
    have hv10 : v / 10 = 10 ^ (g - 1) := by
      rw [hveq, hsplit, Nat.mul_div_cancel _ (by norm_num)]
    have hnud : (IntermediateForm.mk sg v (D + 1 - figures)).nudge figures =
        .ok ⟨sg, v / 10, D + 1 - figures + 1⟩ := by
      rw [IntermediateForm.nudge, hfig1]
      rw [if_neg (by omega), if_neg (by omega)]
      simp only
      rw [if_neg (by omega)]
    have hfl : ((IntermediateForm.mk sg (v / 10) (D + 1 - figures + 1)).figures : Int) ≤
        figures := by
      rw [IntermediateForm.figures]
      simp only
      have h10g1 : 0 < 10 ^ (g - 1) := pow_pos (by norm_num) _
      rw [if_neg (by omega), hv10,
        digits_length_eq _ (g - 1) le_rfl
          (Nat.pow_lt_pow_right (by norm_num) (Nat.lt_succ_self (g - 1)))]
      omega
    have hok : roundToFiguresIntermediate (.finite q) figures mode =
        .ok ⟨sg, v / 10, D + 1 - figures + 1⟩ := by
      rw [hchain, hnud]
    exact ⟨_, hok, hfl, roundToFigures_finite_ok q figures mode hfig _ hok⟩

/-- Witness for C5: rounding 99.97 to 3 significant figures with
ties-to-even. -/
theorem round_to_figures_at_most_figures_witness :
    ∃ r, roundToFiguresIntermediate (.finite (9997 / 100 : Rat)) 3 .TIES_TO_EVEN = .ok r ∧
      (r.figures : Int) ≤ 3 ∧
      roundToFigures (.finite (9997 / 100 : Rat)) 3 .TIES_TO_EVEN =
        .ok (.finite (toTypeOfFraction r)) :=
  round_to_figures_at_most_figures (9997 / 100) 3 .TIES_TO_EVEN (by norm_num) (by norm_num)

end Rounders
